import Mathlib

/-!
Shallow embedding of the parameter-equalizer core of `guibender/settings.py`
(`CVParameter` and `CVEqualizer`), together with proofs about its
textual parameter codec, registry operations and match-file persistence.

Modelling conventions:
* Python values that can appear in a `CVParameter` field (`bool`, `int`,
  `float`, `None`) are the inductive `PyVal`.  Python floats are modelled as
  exact rationals; their `str()` is exact decimal rendering (the fragment the
  codec actually exchanges - no exponent notation), and `float()` parses plain
  decimal literals.
* Python exceptions are the inductive `PyErr`; fallible code returns
  `Except PyErr _`.  `keyError` is the builtin `KeyError` raised by a failed
  dict lookup, `attributeError` the `AttributeError` raised by calling
  `.group` on the `None` that `re.match` returns on failure,
  `imageFinderMethodError` the typed error from the project's `errors` module.
* Python dicts are insertion-ordered association lists (`alSet` mutates the
  first binding in place or appends a new one, as dict assignment does).
* The OpenCV introspection step (`dir(new_backend)` / `get*` attributes in
  `CVEqualizer._new_params`) is abstracted as an environment
  `Env : category -> algorithm -> list of (parameter name, raw value)`,
  the readable numeric/boolean attributes of the external backend object.
* The `.match` file is modelled at the level of the data `RawConfigParser`
  exchanges: an ordered list of sections, each with a `backend` string and an
  ordered list of the remaining `option = text` pairs (the parser preserves
  case via `optionxform = str`; file I/O itself is outside the embedding).
-/

/-- Python exception kinds that the embedded code can raise. -/
inductive PyErr where
  | keyError
  | indexError
  | valueError
  | attributeError
  | assertionError
  | typeError
  | nameError
  | imageFinderMethodError
  | ioError
deriving DecidableEq

/-- A Python value of one of the types a `CVParameter` field can hold:
`None`, `bool`, `int` or `float` (floats as exact rationals). -/
inductive PyVal where
  | pnone : PyVal
  | pbool : Bool → PyVal
  | pint : Int → PyVal
  | pfloat : ℚ → PyVal
deriving DecidableEq

/-- The apostrophe character (code 39), used by the `__repr__` template. -/
def qc : Char := Char.ofNat 39

/-- The newline character; the regex `.` never matches it. -/
def nlc : Char := Char.ofNat 10

/-- Little-endian base-10 digits with explicit fuel (structurally
recursive, so it evaluates inside the kernel). -/
def digitsFuel : Nat → Nat → List Nat
  | 0, _ => []
  | fuel + 1, n => if n = 0 then [] else n % 10 :: digitsFuel fuel (n / 10)

/-- Little-endian base-10 digits of `n` (same value as `Nat.digits 10 n`). -/
def natDigits (n : Nat) : List Nat := digitsFuel n n

/-- Decimal digits of `n`, most significant first; `str()` of a nonnegative
Python int. -/
def natStr (n : Nat) : List Char :=
  if n = 0 then ['0'] else (natDigits n).reverse.map Nat.digitChar

/-- `str()` of a Python int. -/
def intStr (n : Int) : List Char :=
  if n < 0 then '-' :: natStr (-n).toNat else natStr n.toNat

/-- Smallest exponent `e` with `q.den ∣ 10 ^ e`, when one exists:
the number of decimal fraction digits needed to write `q` exactly. -/
def decExp (q : ℚ) : Option Nat :=
  (List.range (q.den + 1)).find? (fun e => q.den ∣ 10 ^ e)

/-- Fraction digits of `r` padded on the left with zeros to width `e`. -/
def fracStr (e r : Nat) : List Char :=
  List.replicate (e - (natDigits r).length) '0' ++
    (natDigits r).reverse.map Nat.digitChar

/-- Decimal rendering of the scaled integer `m` with `e` fraction digits:
always shows a decimal point (`85.0`, `0.9`, `0.05`). -/
def fStrE (e m : Nat) : List Char :=
  if e = 0 then natStr m ++ ['.', '0']
  else natStr (m / 10 ^ e) ++ '.' :: fracStr e (m % 10 ^ e)

/-- `str()` of a nonnegative Python float with an exact decimal expansion. -/
def fStrNN (q : ℚ) : List Char :=
  match decExp q with
  | none => ['?']
  | some e => fStrE e (q.num * 10 ^ e / (q.den : Int)).toNat

/-- `str()` of a Python float (exact-decimal fragment). -/
def floatStr (q : ℚ) : List Char :=
  if q < 0 then '-' :: fStrNN (-q) else fStrNN q

/-- `'%s' %` rendering of a `PyVal`, as in `CVParameter.__repr__`. -/
def strOf : PyVal → List Char
  | .pnone => ['N', 'o', 'n', 'e']
  | .pbool true => ['T', 'r', 'u', 'e']
  | .pbool false => ['F', 'a', 'l', 's', 'e']
  | .pint n => intStr n
  | .pfloat q => floatStr q

deriving instance DecidableEq for Except

/-- A single computer-vision parameter: `CVParameter` from the source
(`value`, `range = (min, max)`, `delta`, `tolerance`, `fixed`). -/
structure CVParameter where
  value : PyVal
  range : PyVal × PyVal
  delta : PyVal
  tolerance : PyVal
  fixed : PyVal
deriving DecidableEq

/-- Numeric reading of a `PyVal` for Python comparison operators
(`True >= 0` holds since bool is an int subtype); `None` is not comparable. -/
def toQ : PyVal → Option ℚ
  | .pnone => none
  | .pbool b => some (if b then 1 else 0)
  | .pint n => some (n : ℚ)
  | .pfloat q => some q

/-- `assert a >= b` on Python values: `AssertionError` when the comparison
holds and is false, `TypeError` when the operands are not comparable. -/
def chkGe (a b : PyVal) : Except PyErr Unit :=
  match toQ a, toQ b with
  | some x, some y => if y ≤ x then .ok () else .error .assertionError
  | _, _ => .error .typeError

/-- `assert a <= b` on Python values. -/
def chkLe (a b : PyVal) : Except PyErr Unit :=
  match toQ a, toQ b with
  | some x, some y => if x ≤ y then .ok () else .error .assertionError
  | _, _ => .error .typeError

/-- The forced `(delta, tolerance)` of `CVParameter.__init__`:
`(0.0, 1.0)` for bool values, `(1, 0.9)` for (non-bool) int values, the
caller-supplied pair otherwise. -/
def buildDT (value delta tolerance : PyVal) : PyVal × PyVal :=
  match value with
  | .pbool _ => (.pfloat 0, .pfloat 1)
  | .pint _ => (.pint 1, .pfloat (mkRat 9 10))
  | _ => (delta, tolerance)

/-- `CVParameter.__init__(value, min_val=None, max_val=None, delta=1.0,
tolerance=0.1, fixed=True)`: stores the fields, forces `delta`/`tolerance`
per `buildDT`, and runs `assert value >= min_val` / `assert value <=
max_val` for the bounds that are not `None`. -/
def CVParameter.build (value min_val max_val delta tolerance fixed : PyVal) :
    Except PyErr CVParameter :=
  match (if min_val ≠ PyVal.pnone then chkGe value min_val else .ok ()) with
  | .error e => .error e
  | .ok _ =>
    match (if max_val ≠ PyVal.pnone then chkLe value max_val else .ok ()) with
    | .error e => .error e
    | .ok _ =>
      .ok { value := value, range := (min_val, max_val),
            delta := (buildDT value delta tolerance).1,
            tolerance := (buildDT value delta tolerance).2,
            fixed := fixed }

/-- Default `delta` argument of the constructor (`1.0`). -/
def dfltDelta : PyVal := .pfloat 1

/-- Default `tolerance` argument of the constructor (`0.1`). -/
def dfltTol : PyVal := .pfloat (mkRat 1 10)

/-- Default `fixed` argument of the constructor (`True`). -/
def dfltFixed : PyVal := .pbool true

/-- The template piece `<value='` that opens the `__repr__` string. -/
def hdr : List Char := ['<', 'v', 'a', 'l', 'u', 'e', '=', qc]

/-- The template piece between the `value` and `min` fields. -/
def sepMin : List Char := [qc, ' ', 'm', 'i', 'n', '=', qc]

/-- The template piece between the `min` and `max` fields. -/
def sepMax : List Char := [qc, ' ', 'm', 'a', 'x', '=', qc]

/-- The template piece between the `max` and `delta` fields. -/
def sepDelta : List Char := [qc, ' ', 'd', 'e', 'l', 't', 'a', '=', qc]

/-- The template piece between the `delta` and `tolerance` fields. -/
def sepTol : List Char :=
  [qc, ' ', 't', 'o', 'l', 'e', 'r', 'a', 'n', 'c', 'e', '=', qc]

/-- The template piece between the `tolerance` and `fixed` fields. -/
def sepFixed : List Char := [qc, ' ', 'f', 'i', 'x', 'e', 'd', '=', qc]

/-- The closing `'>` of the template. -/
def sepClose : List Char := [qc, '>']

/-- `CVParameter.__repr__`: the canonical textual form
`<value='V' min='MN' max='MX' delta='D' tolerance='T' fixed='F'>`. -/
def reprOf (p : CVParameter) : List Char :=
  hdr ++ strOf p.value ++ sepMin ++ strOf p.range.1 ++ sepMax ++
    strOf p.range.2 ++ sepDelta ++ strOf p.delta ++ sepTol ++
    strOf p.tolerance ++ sepFixed ++ strOf p.fixed ++ sepClose

/-- The character class `[\d.None]` of the `min`/`max` regex groups. -/
def class23 (c : Char) : Bool :=
  c.isDigit || c = '.' || c = 'N' || c = 'o' || c = 'n' || c = 'e'

/-- The character class `[\d.]` of the `delta`/`tolerance` regex groups. -/
def classDT (c : Char) : Bool := c.isDigit || c = '.'

/-- The character class `\w` of the `fixed` regex group. -/
def classW (c : Char) : Bool := c.isAlphanum || c = '_'

/-- Consume a literal: `dropLit lit cs` strips `lit` from the front of `cs`. -/
def dropLit : List Char → List Char → Option (List Char)
  | [], cs => some cs
  | _ :: _, [] => none
  | l :: ls, c :: cs => if c = l then dropLit ls cs else none

/-- Greedy maximal munch of a character class (regex `[...]+` followed by a
character outside the class never backtracks). -/
def munch (cls : Char → Bool) : List Char → List Char × List Char
  | [] => ([], [])
  | c :: cs =>
    if cls c then
      let r := munch cls cs
      (c :: r.1, r.2)
    else ([], c :: cs)

/-- The regex groups 2-6 (`min`, `max`, `delta`, `tolerance`, `fixed`). -/
structure RGroups where
  g2 : List Char
  g3 : List Char
  g4 : List Char
  g5 : List Char
  g6 : List Char
deriving DecidableEq

/-- Match the fixed part of the `from_string` regex that follows the `value`
group: `' min='([\d.None]+)' max='([\d.None]+)' delta='([\d.]+)'
tolerance='([\d.]+)' fixed='(\w+)'>` with arbitrary trailing characters
(`re.match` anchors only at the start). -/
def tailParse (cs : List Char) : Option RGroups :=
  match dropLit sepMin cs with
  | none => none
  | some cs =>
    let r2 := munch class23 cs
    if r2.1 = [] then none else
    match dropLit sepMax r2.2 with
    | none => none
    | some cs =>
      let r3 := munch class23 cs
      if r3.1 = [] then none else
      match dropLit sepDelta r3.2 with
      | none => none
      | some cs =>
        let r4 := munch classDT cs
        if r4.1 = [] then none else
        match dropLit sepTol r4.2 with
        | none => none
        | some cs =>
          let r5 := munch classDT cs
          if r5.1 = [] then none else
          match dropLit sepFixed r5.2 with
          | none => none
          | some cs =>
            let r6 := munch classW cs
            if r6.1 = [] then none else
            match dropLit sepClose r6.2 with
            | none => none
            | some _ => some ⟨r2.1, r3.1, r4.1, r5.1, r6.1⟩

/-- The regex `.` class: any character except newline. -/
def noNewline (cs : List Char) : Bool := cs.all (fun c => c ≠ nlc)

/-- Backtracking of the greedy `(.+)` value group: try the longest candidate
first, as the regex engine does, shrinking until the tail pattern matches. -/
def trySplitsAux (body : List Char) : Nat → Option (List Char × RGroups)
  | 0 => none
  | n + 1 =>
    match tailParse (body.drop (n + 1)) with
    | some g =>
      if noNewline (body.take (n + 1)) then some (body.take (n + 1), g)
      else trySplitsAux body n
    | none => trySplitsAux body n

/-- `re.match` of the full `from_string` pattern: returns the six groups
(value group, then `RGroups`) or `none` when the pattern does not match a
prefix of the input. -/
def matchRepr (cs : List Char) : Option (List Char × RGroups) :=
  match dropLit hdr cs with
  | none => none
  | some body => trySplitsAux body body.length

/-- Big-endian decimal reading of a digit string, as Python `int()`. -/
def charsToNat (cs : List Char) : Nat :=
  cs.foldl (fun a c => 10 * a + (c.toNat - 48)) 0

/-- Value of a decimal literal split into its digit part `ip` and the rest. -/
def pyFloatSplit (ip rest : List Char) : Option ℚ :=
  match rest with
  | [] => if ip = [] then none else some ((charsToNat ip : ℚ))
  | c :: frac =>
    if c = '.' ∧ frac.all Char.isDigit ∧ (ip ≠ [] ∨ frac ≠ []) then
      some (mkRat (charsToNat (ip ++ frac)) (10 ^ frac.length))
    else none

/-- Python `float()` restricted to plain decimal literals
(`digits`, `digits.digits`, `.digits`, `digits.`); anything else in the
fragment reachable here raises `ValueError`. -/
def pyFloatLit (cs : List Char) : Option ℚ :=
  pyFloatSplit (cs.takeWhile Char.isDigit)
    (cs.drop (cs.takeWhile Char.isDigit).length)

/-- Conversion of one matched group in `CVParameter.from_string`:
`"None"`/`"True"`/`"False"` literals, then full-digit ints (`\d+$`), then
strings opening with `[\d.]` via `float()`, else `ValueError`. -/
def convArg (cs : List Char) : Except PyErr PyVal :=
  if cs = ['N', 'o', 'n', 'e'] then .ok .pnone
  else if cs = ['T', 'r', 'u', 'e'] then .ok (.pbool true)
  else if cs = ['F', 'a', 'l', 's', 'e'] then .ok (.pbool false)
  else if cs ≠ [] ∧ cs.all Char.isDigit then .ok (.pint (charsToNat cs))
  else if (cs.headD ' ').isDigit ∨ cs.headD ' ' = '.' then
    match pyFloatLit cs with
    | some q => .ok (.pfloat q)
    | none => .error .valueError
  else .error .valueError

/-- `CVParameter.from_string`: match the six-group regex (a failed match
makes `.group` raise `AttributeError`), convert each group in order, then
rebuild through the constructor, which re-forces `delta`/`tolerance`. -/
def fromString (raw : List Char) : Except PyErr CVParameter :=
  match matchRepr raw with
  | none => .error .attributeError
  | some (g1, g) =>
    match convArg g1 with
    | .error e => .error e
    | .ok v =>
      match convArg g.g2 with
      | .error e => .error e
      | .ok mn =>
        match convArg g.g3 with
        | .error e => .error e
        | .ok mx =>
          match convArg g.g4 with
          | .error e => .error e
          | .ok d =>
            match convArg g.g5 with
            | .error e => .error e
            | .ok t =>
              match convArg g.g6 with
              | .error e => .error e
              | .ok f => CVParameter.build v mn mx d t f

/-- The per-category `(parameter name, CVParameter)` dict, insertion-ordered. -/
abbrev Params := List (String × CVParameter)

/-- Association-list lookup: Python dict read (`d[k]`), `none` = `KeyError`. -/
def alLookup {α : Type} : List (String × α) → String → Option α
  | [], _ => none
  | (k', v') :: rest, k => if k' = k then some v' else alLookup rest k

/-- Association-list write: Python dict assignment `d[k] = v` (overwrite the
existing binding in place, else append). -/
def alSet {α : Type} : List (String × α) → String → α → List (String × α)
  | [], k, v => [(k, v)]
  | (k', v') :: rest, k, v =>
    if k' = k then (k, v) :: rest else (k', v') :: alSet rest k v

/-- Python `k in d`. -/
def hasKey {α : Type} (l : List (String × α)) (k : String) : Bool :=
  (alLookup l k).isSome

/-- The `full_names` literal dict mapping the short category keys to the
keys of the `algorithms` dict. -/
def fullNames (category : String) : Option String :=
  if category = "find" then some "find_methods"
  else if category = "tmatch" then some "template_matchers"
  else if category = "fdetect" then some "feature_detectors"
  else if category = "fextract" then some "feature_extractors"
  else if category = "fmatch" then some "feature_matchers"
  else none

/-- The `self.algorithms` catalog of `CVEqualizer.__init__`. -/
def algorithms (fullName : String) : List String :=
  if fullName = "find_methods" then ["autopy", "template", "feature", "hybrid"]
  else if fullName = "template_matchers" then
    ["sqdiff", "ccorr", "ccoeff", "sqdiff_normed", "ccorr_normed",
     "ccoeff_normed"]
  else if fullName = "feature_matchers" then
    ["BruteForce", "BruteForce-L1", "BruteForce-Hamming",
     "BruteForce-Hamming(2)"]
  else if fullName = "feature_detectors" then
    ["ORB", "BRISK", "KAZE", "AKAZE", "MSER", "AgastFeatureDetector",
     "FastFeatureDetector", "GFTTDetector", "SimpleBlobDetector", "oldSURF"]
  else if fullName = "feature_extractors" then ["ORB", "BRISK", "KAZE", "AKAZE"]
  else []

/-- Python `list.index(v)`: index of the first occurrence. -/
def listIndex : List String → String → Nat
  | [], _ => 0
  | x :: xs, v => if x = v then 0 else listIndex xs v + 1

/-- State of a `CVEqualizer`: `_current` (category -> selected index) and
`p` (category -> parameter dict); `__init__` starts both with
`p = {find: {}, tmatch: {}, fextract: {}, fmatch: {}, fdetect: {}}` and
`_current = {}`. -/
structure EqSt where
  current : List (String × Nat)
  p : List (String × Params)
deriving DecidableEq

/-- The state right after `CVEqualizer.__init__` before any backend is
configured. -/
def initSt : EqSt :=
  { current := [],
    p := [("find", []), ("tmatch", []), ("fextract", []), ("fmatch", []),
          ("fdetect", [])] }

/-- The OpenCV introspection oracle: for a category and algorithm name, the
ordered `(parameter, value)` pairs discovered from the external backend
object's `get*` attributes whose values have type bool/int/float/NoneType
(the `dir(new_backend)` loop of `_new_params`). -/
def Env : Type := String → String → List (String × PyVal)

/-- `CVEqualizer.get_backend(category)`: `full_names[category]` (a missing
key raises `KeyError`), then `self._current[category]` (missing selection
raises `KeyError`), then the catalog entry at that index. -/
def getBackend (st : EqSt) (category : String) : Except PyErr String :=
  match fullNames category with
  | none => .error .keyError
  | some fn =>
    match alLookup st.current category with
    | none => .error .keyError
    | some idx =>
      match (algorithms fn).get? idx with
      | none => .error .indexError
      | some b => .ok b

/-- Exception-threading fold, used for the Python `for` loops that can
raise. -/
def exFold {σ α : Type} (f : σ → α → Except PyErr σ) : σ → List α →
    Except PyErr σ
  | s, [] => .ok s
  | s, x :: xs =>
    match f s x with
    | .error e => .error e
    | .ok s' => exFold f s' xs

/-- Exception-threading map over a list. -/
def exMap {α β : Type} (f : α → Except PyErr β) : List α →
    Except PyErr (List β)
  | [] => .ok []
  | x :: xs =>
    match f x with
    | .error e => .error e
    | .ok y =>
      match exMap f xs with
      | .error e => .error e
      | .ok ys => .ok (y :: ys)

/-- One introspected parameter with the bespoke bounds `_new_params` gives a
short list of well-known attribute names (`firstLevel`, `nFeatures`,
`WTA_K`, `scaleFactor`); every other discovered attribute gets an unbounded
parameter seeded with the discovered value. -/
def bespokeParam (category param : String) (val : PyVal) :
    Except PyErr CVParameter :=
  if (category = "fdetect" ∨ category = "fextract") ∧ param = "firstLevel" then
    CVParameter.build val (.pint 0) (.pint 100) dfltDelta dfltTol dfltFixed
  else if (category = "fdetect" ∨ category = "fextract") ∧ param = "nFeatures"
  then
    CVParameter.build val .pnone .pnone (.pint 100) dfltTol dfltFixed
  else if (category = "fdetect" ∨ category = "fextract") ∧ param = "WTA_K" then
    CVParameter.build val (.pint 2) (.pint 4) dfltDelta dfltTol dfltFixed
  else if (category = "fdetect" ∨ category = "fextract") ∧ param = "scaleFactor"
  then
    CVParameter.build val (.pfloat (mkRat 101 100)) (.pfloat 2) dfltDelta
      dfltTol dfltFixed
  else
    CVParameter.build val .pnone .pnone dfltDelta dfltTol dfltFixed

/-- The `dir(new_backend)` loop at the end of `_new_params`: create a
parameter for every discovered attribute and assign it into the dict. -/
def introLoop (category : String) (items : List (String × PyVal))
    (ps : Params) : Except PyErr Params :=
  exFold
    (fun ps pv => do
      let cv ← bespokeParam category pv.1 pv.2
      return alSet ps pv.1 cv)
    ps items

/-- Create a parameter and assign it into the dict
(`self.p[category][name] = CVParameter(...)`), threading exceptions. -/
def thenP (eps : Except PyErr Params) (k : String)
    (r : Except PyErr CVParameter) : Except PyErr Params :=
  match eps with
  | .error e => .error e
  | .ok ps =>
    match r with
    | .error e => .error e
    | .ok cv => .ok (alSet ps k cv)

/-- Run the introspection loop on the dict built so far. -/
def introLoopE (category : String) (items : List (String × PyVal))
    (eps : Except PyErr Params) : Except PyErr Params :=
  match eps with
  | .error e => .error e
  | .ok ps => introLoop category items ps

/-- `CVEqualizer._new_params(category, new)`: reset the category's dict to
`{}` and regenerate the category- and algorithm-specific defaults. -/
def genParams (env : Env) (category new : String) : Except PyErr Params :=
  if category = "find" then
    let e1 := thenP (.ok []) ("similarity")
      (CVParameter.build (.pfloat (mkRat 9 10)) (.pfloat 0) (.pfloat 1)
        (.pfloat (mkRat 1 10)) (.pfloat (mkRat 1 10)) dfltFixed)
    let e2 :=
      if new = "feature" ∨ new = "hybrid" then
        thenP e1 ("ransacReprojThreshold")
          (CVParameter.build (.pfloat 0) (.pfloat 0) (.pfloat 200)
            (.pfloat 10) (.pfloat 1) dfltFixed)
      else e1
    let e3 :=
      if new = "template" ∨ new = "hybrid" then
        thenP e2 ("nocolor")
          (CVParameter.build (.pbool false) .pnone .pnone dfltDelta dfltTol
            dfltFixed)
      else e2
    if new = "hybrid" then
      thenP e3 ("front_similarity")
        (CVParameter.build (.pfloat (mkRat 8 10)) (.pfloat 0) (.pfloat 1)
          (.pfloat (mkRat 1 10)) (.pfloat (mkRat 1 10)) dfltFixed)
    else if new = "2to1hybrid" then
      thenP (thenP (thenP (thenP e3 ("x")
        (CVParameter.build (.pint 1000) (.pint 1) .pnone dfltDelta dfltTol
          dfltFixed)) ("y")
        (CVParameter.build (.pint 1000) (.pint 1) .pnone dfltDelta dfltTol
          dfltFixed)) ("dx")
        (CVParameter.build (.pint 100) (.pint 1) .pnone dfltDelta dfltTol
          dfltFixed)) ("dy")
        (CVParameter.build (.pint 100) (.pint 1) .pnone dfltDelta dfltTol
          dfltFixed)
    else e3
  else if category = "tmatch" then .ok []
  else if category = "fdetect" then
    let base := thenP (thenP (.ok []) ("nzoom")
      (CVParameter.build (.pfloat 4) (.pfloat 1) (.pfloat 10) (.pfloat 1)
        (.pfloat 1) dfltFixed)) ("hzoom")
      (CVParameter.build (.pfloat 4) (.pfloat 1) (.pfloat 10) (.pfloat 1)
        (.pfloat 1) dfltFixed)
    if new = "oldSURF" then
      thenP base ("oldSURFdetect")
        (CVParameter.build (.pint 85) .pnone .pnone dfltDelta dfltTol
          dfltFixed)
    else introLoopE category (env category new) base
  else if category = "fextract" then
    introLoopE category (env category new) (.ok [])
  else if category = "fmatch" then
    if new = "in-house-region" then
      thenP (thenP (thenP (thenP (.ok []) ("refinements")
        (CVParameter.build (.pint 50) (.pint 1) .pnone dfltDelta dfltTol
          dfltFixed)) ("recalc_interval")
        (CVParameter.build (.pint 10) (.pint 1) .pnone dfltDelta dfltTol
          dfltFixed)) ("variants_k")
        (CVParameter.build (.pint 100) (.pint 1) .pnone dfltDelta dfltTol
          dfltFixed)) ("variants_ratio")
        (CVParameter.build (.pfloat (mkRat 33 100)) (.pfloat (mkRat 1 10000))
          (.pfloat 1) dfltDelta dfltTol dfltFixed)
    else
      thenP (thenP (thenP (.ok []) ("ratioThreshold")
        (CVParameter.build (.pfloat (mkRat 65 100)) (.pfloat 0) (.pfloat 1)
          (.pfloat (mkRat 1 10)) dfltTol dfltFixed)) ("ratioTest")
        (CVParameter.build (.pbool false) .pnone .pnone dfltDelta dfltTol
          dfltFixed)) ("symmetryTest")
        (CVParameter.build (.pbool false) .pnone .pnone dfltDelta dfltTol
          dfltFixed)
  else .error .nameError

/-- `CVEqualizer.set_backend(category, value)`: `full_names[category]`
(unknown category raises `KeyError`), reject a value outside the catalog
with the typed `ImageFinderMethodError` before touching any state, else
regenerate the parameter dict and record the new selection index. -/
def setBackend (env : Env) (st : EqSt) (category value : String) :
    Except PyErr EqSt :=
  match fullNames category with
  | none => .error .keyError
  | some fn =>
    if value ∈ algorithms fn then
      match genParams env category value with
      | .error e => .error e
      | .ok ps =>
        .ok { current := alSet st.current category
                (listIndex (algorithms fn) value),
              p := alSet st.p category ps }
    else .error .imageFinderMethodError

/-- Python `==` between a `CVParameter` instance and a string: the class
defines no `__eq__`, so `param == "bytes"` compares an object with a str and
is always `False` (the source compares the dict value `param`, not the
parameter's name, against `"bytes"`). -/
def cvParamEqStr (_p : CVParameter) (_s : String) : Bool := false

/-- `CVEqualizer.can_calibrate(mark, category)`: typed
`ImageFinderMethodError` on a category key missing from `self.p`, else set
`fixed = not mark` on each parameter, with the (dead, see `cvParamEqStr`)
special case keeping `fextract`/`bytes` fixed. -/
def canCalibrate (st : EqSt) (mark : Bool) (category : String) :
    Except PyErr EqSt :=
  if hasKey st.p category = false then .error .imageFinderMethodError
  else
    let ps := (alLookup st.p category).getD []
    let ps' := ps.map (fun np =>
      (np.1,
        if category = "fextract" ∧ cvParamEqStr np.2 "bytes" then
          { np.2 with fixed := .pbool true }
        else
          { np.2 with fixed := .pbool (!mark) }))
    .ok { st with p := alSet st.p category ps' }

/-- One section of a parsed `.match` file: the `backend` option and the
remaining `option = encoded-parameter` pairs, in file order. -/
structure MSec where
  backend : String
  opts : List (String × List Char)
deriving DecidableEq

/-- A parsed `.match` file: one named section per category, in file order. -/
abbrev MatchFile := List (String × MSec)

/-- `CVEqualizer.to_match_file`: one section per key of `self.p`, holding the
selected backend name and each parameter's `__repr__` text. -/
def toMatchFile (st : EqSt) : Except PyErr MatchFile :=
  exMap
    (fun cps =>
      match getBackend st cps.1 with
      | .error e => .error e
      | .ok b =>
        .ok (cps.1, MSec.mk b (cps.2.map (fun np => (np.1, reprOf np.2)))))
    st.p

/-- One non-`backend` option of a section: decode the stored text and
assign the parameter into the category's dict
(`self.p[category][option] = param`). -/
def applyOpt (category : String) (s : EqSt) (ot : String × List Char) :
    Except PyErr EqSt :=
  match fromString ot.2 with
  | .error e => .error e
  | .ok par =>
    match alLookup s.p category with
    | none => .error .keyError
    | some ps =>
      .ok { s with p := alSet s.p category (alSet ps ot.1 par) }

/-- Processing of one category in `from_match_file`: skip a missing
section, else compare the stored `backend` against the current one, switch
if it differs (a destructive default reset), then apply every other
option. -/
def processCat (env : Env) (file : MatchFile) (s : EqSt) (category : String) :
    Except PyErr EqSt :=
  match alLookup file category with
  | none => .ok s
  | some sec =>
    match getBackend s category with
    | .error e => .error e
    | .ok cur =>
      match (if sec.backend ≠ cur then setBackend env s category sec.backend
             else .ok s) with
      | .error e => .error e
      | .ok s => exFold (applyOpt category) s sec.opts

/-- `CVEqualizer.from_match_file` (after the file is read and parsed):
process each key of `self.p` in order. -/
def fromMatchFile (env : Env) (st : EqSt) (file : MatchFile) :
    Except PyErr EqSt :=
  exFold (processCat env file) st (st.p.map Prod.fst)

/-- `encValB v`: the rendered form of a `value` field that survives the
decoder: `None`, bools, nonnegative ints, nonnegative exact-decimal floats
(the regex offers no sign character, so negatives cannot be read back). -/
def encValB : PyVal → Bool
  | .pnone => true
  | .pbool _ => true
  | .pint n => decide (0 ≤ n)
  | .pfloat q => decide (0 ≤ q) && (decExp q).isSome

/-- A `delta`/`tolerance` field whose rendering matches the `[\d.]+` group. -/
def encNumB : PyVal → Bool
  | .pint n => decide (0 ≤ n)
  | .pfloat q => decide (0 ≤ q) && (decExp q).isSome
  | _ => false

/-- A `min`/`max` field whose rendering matches the `[\d.None]+` group. -/
def encBoundB : PyVal → Bool
  | .pnone => true
  | .pbool _ => false
  | .pint n => decide (0 ≤ n)
  | .pfloat q => decide (0 ≤ q) && (decExp q).isSome

theorem digitsFuel_eq (fuel n : Nat) (h : n ≤ fuel) :
    digitsFuel fuel n = Nat.digits 10 n := by
  induction fuel generalizing n with
  | zero =>
    have hn : n = 0 := by omega
    subst hn
    simp [digitsFuel]
  | succ fuel ih =>
    unfold digitsFuel
    by_cases hn : n = 0
    · subst hn
      simp
    · rw [if_neg hn, Nat.digits_def' (by norm_num : (1 : Nat) < 10)
        (Nat.pos_of_ne_zero hn), ih (n / 10) ?_]
      have := Nat.div_lt_self (Nat.pos_of_ne_zero hn)
        (by norm_num : (1 : Nat) < 10)
      omega

theorem natDigits_eq (n : Nat) : natDigits n = Nat.digits 10 n :=
  digitsFuel_eq n n le_rfl

theorem charsToNat_go (ys : List Char) (a : Nat) :
    List.foldl (fun a c => 10 * a + (c.toNat - 48)) a ys =
      a * 10 ^ ys.length + charsToNat ys := by
  induction ys generalizing a with
  | nil => simp [charsToNat]
  | cons c ys ih =>
    have hc : charsToNat (c :: ys) = (c.toNat - 48) * 10 ^ ys.length +
        charsToNat ys := by
      show List.foldl _ (10 * 0 + (c.toNat - 48)) ys = _
      rw [ih]
      simp
    rw [List.foldl_cons, ih, hc, List.length_cons, pow_succ]
    ring

theorem charsToNat_append (xs ys : List Char) :
    charsToNat (xs ++ ys) = charsToNat xs * 10 ^ ys.length + charsToNat ys := by
  show List.foldl _ 0 (xs ++ ys) = _
  rw [List.foldl_append]
  exact charsToNat_go ys (charsToNat xs)

theorem charsToNat_snoc (xs : List Char) (c : Char) :
    charsToNat (xs ++ [c]) = 10 * charsToNat xs + (c.toNat - 48) := by
  rw [charsToNat_append]
  show charsToNat xs * 10 ^ 1 + (10 * 0 + (c.toNat - 48)) = _
  ring

theorem charsToNat_repl0 (k : Nat) :
    charsToNat (List.replicate k '0') = 0 := by
  induction k with
  | zero => rfl
  | succ k ih =>
    have h0 : ('0' :: List.replicate k '0') = ['0'] ++ List.replicate k '0' :=
      rfl
    have h1 : charsToNat ['0'] = 0 := by decide
    rw [List.replicate_succ, h0, charsToNat_append, ih, h1]
    ring

theorem charsToNat_pad (k : Nat) (ds : List Char) :
    charsToNat (List.replicate k '0' ++ ds) = charsToNat ds := by
  rw [charsToNat_append, charsToNat_repl0]
  simp

theorem digitVal_digitChar (d : Nat) (h : d < 10) :
    (Nat.digitChar d).toNat - 48 = d := by
  interval_cases d <;> decide

theorem isDigit_digitChar (d : Nat) (h : d < 10) :
    (Nat.digitChar d).isDigit = true := by
  interval_cases d <;> decide

theorem charsToNat_revmap (ds : List Nat) (h : ∀ d ∈ ds, d < 10) :
    charsToNat (ds.reverse.map Nat.digitChar) = Nat.ofDigits 10 ds := by
  induction ds with
  | nil => rfl
  | cons d ds ih =>
    rw [List.reverse_cons, List.map_append, List.map_cons, List.map_nil,
      charsToNat_snoc,
      ih (fun x hx => h x (List.mem_cons_of_mem _ hx)),
      digitVal_digitChar d (h d (List.mem_cons_self _ _))]
    have : Nat.ofDigits 10 (d :: ds) = d + 10 * Nat.ofDigits 10 ds := by
      exact_mod_cast Nat.ofDigits_cons
    omega

theorem charsToNat_natStr (n : Nat) : charsToNat (natStr n) = n := by
  unfold natStr
  rw [natDigits_eq]
  split
  · subst_vars; rfl
  · rw [charsToNat_revmap _ (fun d hd => Nat.digits_lt_base (by norm_num) hd),
      Nat.ofDigits_digits]

theorem natStr_all_digits (n : Nat) : ∀ c ∈ natStr n, c.isDigit = true := by
  unfold natStr
  rw [natDigits_eq]
  split
  · intro c hc
    rw [List.mem_singleton] at hc
    subst hc; decide
  · intro c hc
    rw [List.mem_map] at hc
    obtain ⟨d, hd, rfl⟩ := hc
    rw [List.mem_reverse] at hd
    exact isDigit_digitChar d (Nat.digits_lt_base (by norm_num) hd)

theorem natStr_ne_nil (n : Nat) : natStr n ≠ [] := by
  unfold natStr
  rw [natDigits_eq]
  split
  · simp
  · have h1 : Nat.digits 10 n ≠ [] := Nat.digits_ne_nil_iff_ne_zero.mpr ‹_›
    simp [h1]

theorem digits_len_le_of_lt (r e : Nat) (h : r < 10 ^ e) :
    (Nat.digits 10 r).length ≤ e := by
  by_cases hr : r = 0
  · subst hr; simp
  · by_contra hl
    push_neg at hl
    have h1 : 10 ^ (e + 1) ≤ 10 ^ (Nat.digits 10 r).length :=
      Nat.pow_le_pow_right (by norm_num) hl
    have h2 : 10 ^ (Nat.digits 10 r).length ≤ 10 * r :=
      Nat.base_pow_length_digits_le 10 r (by norm_num) hr
    have h3 : 10 ^ e * 10 ≤ r * 10 := by
      rw [← pow_succ]
      omega
    have h4 : 10 ^ e ≤ r := Nat.le_of_mul_le_mul_right h3 (by norm_num)
    omega

theorem fracStr_length (e r : Nat) (h : r < 10 ^ e) :
    (fracStr e r).length = e := by
  unfold fracStr
  rw [natDigits_eq]
  have := digits_len_le_of_lt r e h
  simp only [List.length_append, List.length_replicate, List.length_map,
    List.length_reverse]
  omega

theorem fracStr_all_digits (e r : Nat) : ∀ c ∈ fracStr e r, c.isDigit = true := by
  unfold fracStr
  rw [natDigits_eq]
  intro c hc
  rw [List.mem_append] at hc
  rcases hc with hc | hc
  · rw [List.eq_of_mem_replicate hc]; decide
  · rw [List.mem_map] at hc
    obtain ⟨d, hd, rfl⟩ := hc
    rw [List.mem_reverse] at hd
    exact isDigit_digitChar d (Nat.digits_lt_base (by norm_num) hd)

theorem charsToNat_fracStr (e r : Nat) :
    charsToNat (fracStr e r) = r := by
  unfold fracStr
  rw [natDigits_eq]
  rw [charsToNat_pad,
    charsToNat_revmap _ (fun d hd => Nat.digits_lt_base (by norm_num) hd),
    Nat.ofDigits_digits]

theorem takeWhile_digits (as bs : List Char)
    (h : ∀ c ∈ as, c.isDigit = true) :
    (as ++ '.' :: bs).takeWhile Char.isDigit = as := by
  induction as with
  | nil =>
    rw [List.nil_append, List.takeWhile_cons,
      if_neg (show ¬('.'.isDigit = true) by decide)]
  | cons a as ih =>
    rw [List.cons_append, List.takeWhile_cons,
      if_pos (h a (List.mem_cons_self _ _))]
    rw [ih (fun c hc => h c (List.mem_cons_of_mem _ hc))]

theorem mkRat_eq_div (n : Nat) (d : Nat) :
    mkRat (n : Int) d = (n : ℚ) / (d : ℚ) := by
  rw [Rat.mkRat_eq_divInt, Rat.divInt_eq_div]
  norm_num

theorem pyFloatLit_split (as bs : List Char)
    (ha : ∀ c ∈ as, c.isDigit = true) (hb : ∀ c ∈ bs, c.isDigit = true)
    (hne : as ≠ [] ∨ bs ≠ []) :
    pyFloatLit (as ++ '.' :: bs) =
      some (mkRat (charsToNat (as ++ bs)) (10 ^ bs.length)) := by
  unfold pyFloatLit
  rw [takeWhile_digits as bs ha, List.drop_left]
  simp only [pyFloatSplit]
  rw [if_pos ⟨trivial, List.all_eq_true.mpr hb, hne⟩]

theorem pyFloatLit_fStrE (e m : Nat) :
    pyFloatLit (fStrE e m) = some ((m : ℚ) / 10 ^ e) := by
  unfold fStrE
  by_cases he : e = 0
  · subst he
    rw [if_pos rfl]
    have h1 : natStr m ++ ['.', '0'] = natStr m ++ '.' :: ['0'] := rfl
    have h2 : ∀ c ∈ ['0'], c.isDigit = true := by decide
    rw [h1, pyFloatLit_split _ _ (natStr_all_digits m) h2
      (Or.inl (natStr_ne_nil m))]
    rw [charsToNat_snoc, charsToNat_natStr]
    have h3 : Char.toNat '0' - 48 = 0 := rfl
    rw [h3, mkRat_eq_div]
    congr 1
    push_cast
    norm_num
  · rw [if_neg he]
    rw [pyFloatLit_split _ _ (natStr_all_digits _) (fracStr_all_digits e _)
      (Or.inl (natStr_ne_nil _))]
    have hlt : m % 10 ^ e < 10 ^ e := Nat.mod_lt _ (by positivity)
    rw [charsToNat_append, charsToNat_natStr, charsToNat_fracStr,
      fracStr_length e _ hlt]
    have hdm : m / 10 ^ e * 10 ^ e + m % 10 ^ e = m := by
      rw [mul_comm]
      exact Nat.div_add_mod m (10 ^ e)
    rw [hdm, mkRat_eq_div]
    push_cast
    norm_num

theorem qden_dvd (q : ℚ) (e : Nat) (he : decExp q = some e) :
    q.den ∣ 10 ^ e := by
  unfold decExp at he
  have h := List.find?_some he
  simpa using h

theorem mQ_spec (q : ℚ) (h0 : 0 ≤ q) (e : Nat) (he : decExp q = some e) :
    (((q.num * 10 ^ e / (q.den : Int)).toNat : ℚ)) = q * 10 ^ e := by
  have hdvd : (q.den : ℤ) ∣ q.num * 10 ^ e := by
    apply Dvd.dvd.mul_left
    have := qden_dvd q e he
    exact_mod_cast Int.natCast_dvd_natCast.mpr this
  have hmul : q.num * 10 ^ e / (q.den : ℤ) * (q.den : ℤ) = q.num * 10 ^ e :=
    Int.ediv_mul_cancel hdvd
  have hnum : 0 ≤ q.num := Rat.num_nonneg.mpr h0
  have hpos : (0 : ℤ) < (q.den : ℤ) := by exact_mod_cast q.pos
  have hm0 : 0 ≤ q.num * 10 ^ e / (q.den : ℤ) :=
    Int.ediv_nonneg (by positivity) (le_of_lt hpos)
  have hden : (q.den : ℚ) ≠ 0 := by
    have := q.pos
    positivity
  have hcast : ((q.num * 10 ^ e / (q.den : Int)).toNat : ℚ) =
      ((q.num * 10 ^ e / (q.den : Int) : ℤ) : ℚ) := by
    rw [← Int.cast_natCast, Int.toNat_of_nonneg hm0]
  rw [hcast]
  have h2 : ((q.num * 10 ^ e / (q.den : Int) : ℤ) : ℚ) * (q.den : ℚ) =
      (q.num : ℚ) * 10 ^ e := by
    exact_mod_cast congrArg (fun x : ℤ => (x : ℚ)) hmul
  have h3 := eq_div_of_mul_eq hden h2
  rw [h3, mul_div_right_comm, Rat.num_div_den]

theorem pyFloatLit_fStrNN (q : ℚ) (h0 : 0 ≤ q) (e : Nat)
    (he : decExp q = some e) : pyFloatLit (fStrNN q) = some q := by
  unfold fStrNN
  rw [he, pyFloatLit_fStrE]
  congr 1
  rw [mQ_spec q h0 e he]
  exact mul_div_cancel_right₀ _ (by positivity)

theorem fStrE_shape (e m : Nat) :
    ∃ a rest, fStrE e m = natStr a ++ '.' :: rest ∧
      ∀ c ∈ rest, c.isDigit = true := by
  unfold fStrE
  by_cases he : e = 0
  · subst he
    rw [if_pos rfl]
    exact ⟨m, ['0'], rfl, by decide⟩
  · rw [if_neg he]
    exact ⟨m / 10 ^ e, fracStr e (m % 10 ^ e), rfl, fracStr_all_digits e _⟩

theorem fStrNN_shape (q : ℚ) (e : Nat) (he : decExp q = some e) :
    ∃ a rest, fStrNN q = natStr a ++ '.' :: rest ∧
      ∀ c ∈ rest, c.isDigit = true := by
  unfold fStrNN
  rw [he]
  exact fStrE_shape e _

theorem isDigit_ne_special (c : Char) (h : c.isDigit = true) :
    c ≠ qc ∧ c ≠ nlc ∧ c ≠ ' ' := by
  refine ⟨?_, ?_, ?_⟩ <;> rintro rfl <;> exact absurd h (by decide)

theorem isDigit_class23 (c : Char) (h : c.isDigit = true) :
    class23 c = true := by
  unfold class23
  rw [h]
  rfl

theorem isDigit_classDT (c : Char) (h : c.isDigit = true) :
    classDT c = true := by
  unfold classDT
  rw [h]
  rfl

theorem natStr_ne_concrete (n : Nat) (ds : List Char) (c0 : Char)
    (hmem : c0 ∈ ds) (hnd : c0.isDigit = false) : natStr n ≠ ds := by
  intro h
  have hm : c0 ∈ natStr n := by rw [h]; exact hmem
  have := natStr_all_digits n c0 hm
  rw [hnd] at this
  exact Bool.noConfusion this

theorem convArg_natStr (n : Nat) : convArg (natStr n) = .ok (.pint n) := by
  unfold convArg
  rw [if_neg (natStr_ne_concrete n _ 'N' (by decide) (by decide)),
    if_neg (natStr_ne_concrete n _ 'T' (by decide) (by decide)),
    if_neg (natStr_ne_concrete n _ 'F' (by decide) (by decide)),
    if_pos ⟨natStr_ne_nil n, List.all_eq_true.mpr (natStr_all_digits n)⟩,
    charsToNat_natStr]

theorem convArg_fStrNN (q : ℚ) (h0 : 0 ≤ q) (e : Nat)
    (he : decExp q = some e) : convArg (fStrNN q) = .ok (.pfloat q) := by
  obtain ⟨a, rest, hsh, hrest⟩ := fStrNN_shape q e he
  have hdot : '.' ∈ fStrNN q := by
    rw [hsh]
    exact List.mem_append_right _ (List.mem_cons_self _ _)
  have h1 : fStrNN q ≠ ['N', 'o', 'n', 'e'] := by
    intro h
    rw [h] at hdot
    exact absurd hdot (by decide)
  have h2 : fStrNN q ≠ ['T', 'r', 'u', 'e'] := by
    intro h
    rw [h] at hdot
    exact absurd hdot (by decide)
  have h3 : fStrNN q ≠ ['F', 'a', 'l', 's', 'e'] := by
    intro h
    rw [h] at hdot
    exact absurd hdot (by decide)
  have h4 : ¬(fStrNN q ≠ [] ∧ (fStrNN q).all Char.isDigit = true) := by
    rintro ⟨-, hall⟩
    have := List.all_eq_true.mp hall '.' hdot
    exact absurd this (by decide)
  have h5 : ((fStrNN q).headD ' ').isDigit = true ∨
      (fStrNN q).headD ' ' = '.' := by
    obtain ⟨c, cs, hc⟩ := List.exists_cons_of_ne_nil (natStr_ne_nil a)
    left
    rw [hsh, hc, List.cons_append, List.headD_cons]
    exact natStr_all_digits a c (by rw [hc]; exact List.mem_cons_self _ _)
  unfold convArg
  rw [if_neg h1, if_neg h2, if_neg h3, if_neg h4, if_pos h5,
    pyFloatLit_fStrNN q h0 e he]

theorem encFloat_elim (q : ℚ)
    (h : (decide (0 ≤ q) && (decExp q).isSome) = true) :
    0 ≤ q ∧ ∃ e, decExp q = some e := by
  rw [Bool.and_eq_true] at h
  exact ⟨of_decide_eq_true h.1, Option.isSome_iff_exists.mp h.2⟩

theorem strOf_pfloat_nonneg (q : ℚ) (h0 : 0 ≤ q) :
    strOf (.pfloat q) = fStrNN q := by
  show floatStr q = fStrNN q
  unfold floatStr
  rw [if_neg (not_lt.mpr h0)]

theorem convArg_strOf (v : PyVal) (h : encValB v = true) :
    convArg (strOf v) = .ok v := by
  match v with
  | .pnone => decide
  | .pbool true => decide
  | .pbool false => decide
  | .pint n =>
    have hn : 0 ≤ n := of_decide_eq_true h
    show convArg (intStr n) = _
    unfold intStr
    rw [if_neg (not_lt.mpr hn), convArg_natStr, Int.toNat_of_nonneg hn]
  | .pfloat q =>
    obtain ⟨h0, e, he⟩ := encFloat_elim q h
    rw [strOf_pfloat_nonneg q h0]
    exact convArg_fStrNN q h0 e he

theorem strOf_bound_facts (v : PyVal) (h : encBoundB v = true) :
    strOf v ≠ [] ∧ ∀ c ∈ strOf v, class23 c = true := by
  match v with
  | .pnone => exact ⟨by decide, by decide⟩
  | .pbool b => exact absurd h (by cases b <;> decide)
  | .pint n =>
    have hn : 0 ≤ n := of_decide_eq_true h
    have hstr : strOf (.pint n) = natStr n.toNat := by
      show intStr n = _
      unfold intStr
      rw [if_neg (not_lt.mpr hn)]
    rw [hstr]
    exact ⟨natStr_ne_nil _,
      fun c hc => isDigit_class23 c (natStr_all_digits _ c hc)⟩
  | .pfloat q =>
    obtain ⟨h0, e, he⟩ := encFloat_elim q h
    rw [strOf_pfloat_nonneg q h0]
    obtain ⟨a, rest, hsh, hrest⟩ := fStrNN_shape q e he
    rw [hsh]
    constructor
    · simp [natStr_ne_nil a]
    · intro c hc
      rw [List.mem_append] at hc
      rcases hc with hc | hc
      · exact isDigit_class23 c (natStr_all_digits _ c hc)
      · rw [List.mem_cons] at hc
        rcases hc with rfl | hc
        · decide
        · exact isDigit_class23 c (hrest c hc)

theorem strOf_num_facts (v : PyVal) (h : encNumB v = true) :
    strOf v ≠ [] ∧ ∀ c ∈ strOf v, classDT c = true := by
  match v with
  | .pnone => exact absurd h (by decide)
  | .pbool b => exact absurd h (by cases b <;> decide)
  | .pint n =>
    have hn : 0 ≤ n := of_decide_eq_true h
    have hstr : strOf (.pint n) = natStr n.toNat := by
      show intStr n = _
      unfold intStr
      rw [if_neg (not_lt.mpr hn)]
    rw [hstr]
    exact ⟨natStr_ne_nil _,
      fun c hc => isDigit_classDT c (natStr_all_digits _ c hc)⟩
  | .pfloat q =>
    obtain ⟨h0, e, he⟩ := encFloat_elim q h
    rw [strOf_pfloat_nonneg q h0]
    obtain ⟨a, rest, hsh, hrest⟩ := fStrNN_shape q e he
    rw [hsh]
    constructor
    · simp [natStr_ne_nil a]
    · intro c hc
      rw [List.mem_append] at hc
      rcases hc with hc | hc
      · exact isDigit_classDT c (natStr_all_digits _ c hc)
      · rw [List.mem_cons] at hc
        rcases hc with rfl | hc
        · decide
        · exact isDigit_classDT c (hrest c hc)

theorem strOf_fixed_facts (b : Bool) :
    strOf (.pbool b) ≠ [] ∧ ∀ c ∈ strOf (.pbool b), classW c = true := by
  cases b <;> exact ⟨by decide, by decide⟩

theorem strOf_val_facts (v : PyVal) (h : encValB v = true) :
    strOf v ≠ [] ∧ noNewline (strOf v) = true := by
  have hgen : ∀ cs : List Char, (∀ c ∈ cs, c.isDigit = true ∨ c = '.') →
      noNewline cs = true := by
    intro cs hcs
    rw [noNewline, List.all_eq_true]
    intro c hc
    rcases hcs c hc with hd | rfl
    · exact decide_eq_true (isDigit_ne_special c hd).2.1
    · decide
  match v with
  | .pnone => exact ⟨by decide, by decide⟩
  | .pbool b => cases b <;> exact ⟨by decide, by decide⟩
  | .pint n =>
    have hn : 0 ≤ n := of_decide_eq_true h
    have hstr : strOf (.pint n) = natStr n.toNat := by
      show intStr n = _
      unfold intStr
      rw [if_neg (not_lt.mpr hn)]
    rw [hstr]
    exact ⟨natStr_ne_nil _,
      hgen _ (fun c hc => Or.inl (natStr_all_digits _ c hc))⟩
  | .pfloat q =>
    obtain ⟨h0, e, he⟩ := encFloat_elim q h
    rw [strOf_pfloat_nonneg q h0]
    obtain ⟨a, rest, hsh, hrest⟩ := fStrNN_shape q e he
    rw [hsh]
    refine ⟨by simp [natStr_ne_nil a], hgen _ ?_⟩
    intro c hc
    rw [List.mem_append] at hc
    rcases hc with hc | hc
    · exact Or.inl (natStr_all_digits _ c hc)
    · rw [List.mem_cons] at hc
      rcases hc with rfl | hc
      · exact Or.inr rfl
      · exact Or.inl (hrest c hc)

theorem dropLit_append (xs ys : List Char) : dropLit xs (xs ++ ys) = some ys := by
  induction xs with
  | nil => rfl
  | cons x xs ih =>
    rw [List.cons_append]
    show (if x = x then dropLit xs (xs ++ ys) else none) = some ys
    rw [if_pos rfl, ih]

theorem munch_append (cls : Char → Bool) (xs ys : List Char) (y : Char)
    (hx : ∀ c ∈ xs, cls c = true) (hy : cls y = false) :
    munch cls (xs ++ y :: ys) = (xs, y :: ys) := by
  induction xs with
  | nil =>
    rw [List.nil_append]
    show (if cls y then _ else ([], y :: ys)) = ([], y :: ys)
    rw [hy]
    rfl
  | cons x xs ih =>
    rw [List.cons_append]
    show (if cls x then _ else _) = _
    rw [hx x (List.mem_cons_self _ _)]
    show (x :: (munch cls (xs ++ y :: ys)).1, (munch cls (xs ++ y :: ys)).2) = _
    rw [ih (fun c hc => hx c (List.mem_cons_of_mem _ hc))]

theorem munch_before_sep (cls : Char → Bool) (xs sepT ys : List Char)
    (hx : ∀ c ∈ xs, cls c = true) (hq : cls qc = false) :
    munch cls (xs ++ ((qc :: sepT) ++ ys)) = (xs, (qc :: sepT) ++ ys) := by
  have h := munch_append cls xs (sepT ++ ys) qc hx hq
  rw [← List.cons_append] at h
  exact h

theorem tailParse_ok (mn mx d t f rest : List Char)
    (hmn : mn ≠ []) (hmnc : ∀ c ∈ mn, class23 c = true)
    (hmx : mx ≠ []) (hmxc : ∀ c ∈ mx, class23 c = true)
    (hd : d ≠ []) (hdc : ∀ c ∈ d, classDT c = true)
    (ht : t ≠ []) (htc : ∀ c ∈ t, classDT c = true)
    (hf : f ≠ []) (hfc : ∀ c ∈ f, classW c = true) :
    tailParse (sepMin ++ mn ++ sepMax ++ mx ++ sepDelta ++ d ++ sepTol ++ t ++
      sepFixed ++ f ++ sepClose ++ rest) = some ⟨mn, mx, d, t, f⟩ := by
  unfold tailParse
  simp only [List.append_assoc]
  rw [dropLit_append]
  dsimp only
  rw [show (sepMax : List Char) = qc :: [' ', 'm', 'a', 'x', '=', qc] from rfl,
    munch_before_sep class23 mn _ _ hmnc (by decide)]
  dsimp only
  rw [if_neg hmn,
    show (qc :: [' ', 'm', 'a', 'x', '=', qc] : List Char) = sepMax from rfl,
    dropLit_append]
  dsimp only
  rw [show (sepDelta : List Char) =
      qc :: [' ', 'd', 'e', 'l', 't', 'a', '=', qc] from rfl,
    munch_before_sep class23 mx _ _ hmxc (by decide)]
  dsimp only
  rw [if_neg hmx,
    show (qc :: [' ', 'd', 'e', 'l', 't', 'a', '=', qc] : List Char) =
      sepDelta from rfl,
    dropLit_append]
  dsimp only
  rw [show (sepTol : List Char) =
      qc :: [' ', 't', 'o', 'l', 'e', 'r', 'a', 'n', 'c', 'e', '=', qc]
      from rfl,
    munch_before_sep classDT d _ _ hdc (by decide)]
  dsimp only
  rw [if_neg hd,
    show (qc :: [' ', 't', 'o', 'l', 'e', 'r', 'a', 'n', 'c', 'e', '=', qc] :
      List Char) = sepTol from rfl,
    dropLit_append]
  dsimp only
  rw [show (sepFixed : List Char) =
      qc :: [' ', 'f', 'i', 'x', 'e', 'd', '=', qc] from rfl,
    munch_before_sep classDT t _ _ htc (by decide)]
  dsimp only
  rw [if_neg ht,
    show (qc :: [' ', 'f', 'i', 'x', 'e', 'd', '=', qc] : List Char) =
      sepFixed from rfl,
    dropLit_append]
  dsimp only
  rw [show (sepClose : List Char) = qc :: ['>'] from rfl,
    munch_before_sep classW f _ _ hfc (by decide)]
  dsimp only
  rw [if_neg hf,
    show (qc :: ['>'] : List Char) = sepClose from rfl,
    dropLit_append]

theorem tailParse_nil : tailParse [] = none := rfl

theorem tailParse_cons_ne (c : Char) (cs : List Char) (hc : c ≠ qc) :
    tailParse (c :: cs) = none := by
  unfold tailParse
  rw [show dropLit sepMin (c :: cs) = none from by simp [sepMin, dropLit, hc]]

theorem tailParse_q_ns (c : Char) (cs : List Char) (hc : c ≠ ' ') :
    tailParse (qc :: c :: cs) = none := by
  unfold tailParse
  rw [show dropLit sepMin (qc :: c :: cs) = none from by
    simp [sepMin, dropLit, hc]]

theorem tailParse_qs_nm (c : Char) (cs : List Char) (hc : c ≠ 'm') :
    tailParse (qc :: ' ' :: c :: cs) = none := by
  unfold tailParse
  rw [show dropLit sepMin (qc :: ' ' :: c :: cs) = none from by
    simp [sepMin, dropLit, hc]]

theorem tailParse_qsm_ni (c : Char) (cs : List Char) (hc : c ≠ 'i') :
    tailParse (qc :: ' ' :: 'm' :: c :: cs) = none := by
  unfold tailParse
  rw [show dropLit sepMin (qc :: ' ' :: 'm' :: c :: cs) = none from by
    simp [sepMin, dropLit, hc]]

theorem class23_ne (c : Char) (h : class23 c = true) : c ≠ qc ∧ c ≠ ' ' := by
  constructor <;> rintro rfl <;> exact absurd h (by decide)

theorem classDT_ne (c : Char) (h : classDT c = true) : c ≠ qc ∧ c ≠ ' ' := by
  constructor <;> rintro rfl <;> exact absurd h (by decide)

theorem classW_ne (c : Char) (h : classW c = true) : c ≠ qc ∧ c ≠ ' ' := by
  constructor <;> rintro rfl <;> exact absurd h (by decide)

theorem sfx_nil : ∀ s : List Char, s <:+ [] → tailParse s = none := by
  intro s hs
  rw [List.suffix_nil.mp hs]
  exact tailParse_nil

theorem sfx_cons (c : Char) (ys : List Char)
    (hc : tailParse (c :: ys) = none)
    (h : ∀ s, s <:+ ys → tailParse s = none) :
    ∀ s, s <:+ c :: ys → tailParse s = none := by
  intro s hs
  obtain ⟨u, hu⟩ := hs
  cases u with
  | nil =>
    have hse : s = c :: ys := by simpa using hu
    rw [hse]
    exact hc
  | cons a u =>
    rw [List.cons_append] at hu
    injection hu with _ h2
    exact h s ⟨u, h2⟩

theorem sfx_block (xs ys : List Char) (hxs : ∀ c ∈ xs, c ≠ qc)
    (h : ∀ s, s <:+ ys → tailParse s = none) :
    ∀ s, s <:+ xs ++ ys → tailParse s = none := by
  induction xs with
  | nil => simpa using h
  | cons x xs ih =>
    have htail := ih (fun c hc => hxs c (List.mem_cons_of_mem _ hc))
    rw [List.cons_append]
    exact sfx_cons x (xs ++ ys)
      (tailParse_cons_ne x _ (hxs x (List.mem_cons_self _ _))) htail

theorem sfx_q_field (fld ys : List Char) (hne : fld ≠ [])
    (hfc : ∀ c ∈ fld, c ≠ qc ∧ c ≠ ' ')
    (h : ∀ s, s <:+ fld ++ ys → tailParse s = none) :
    ∀ s, s <:+ qc :: (fld ++ ys) → tailParse s = none := by
  obtain ⟨c0, fld', rfl⟩ := List.exists_cons_of_ne_nil hne
  refine sfx_cons qc _ ?_ h
  rw [List.cons_append]
  exact tailParse_q_ns c0 _ (hfc c0 (List.mem_cons_self _ _)).2

theorem tail1_fail (mn mx d t f : List Char)
    (hmn : mn ≠ []) (hmnc : ∀ c ∈ mn, class23 c = true)
    (hmx : mx ≠ []) (hmxc : ∀ c ∈ mx, class23 c = true)
    (hd : d ≠ []) (hdc : ∀ c ∈ d, classDT c = true)
    (ht : t ≠ []) (htc : ∀ c ∈ t, classDT c = true)
    (hf : f ≠ []) (hfc : ∀ c ∈ f, classW c = true) :
    ∀ s, s <:+ [' ', 'm', 'i', 'n', '=', qc] ++ (mn ++ (sepMax ++ (mx ++ (sepDelta ++ (d ++ (sepTol ++ (t ++ (sepFixed ++ (f ++ sepClose))))))))) →
      tailParse s = none := by
  have h2 : ∀ s, s <:+ sepClose → tailParse s = none :=
    sfx_cons qc ['>'] (tailParse_q_ns '>' [] (by decide))
      (sfx_cons '>' [] (tailParse_cons_ne '>' [] (by decide)) sfx_nil)
  have h3 : ∀ s, s <:+ f ++ sepClose → tailParse s = none :=
    sfx_block f sepClose (fun c hc => (classW_ne c (hfc c hc)).1) h2
  have h4 : ∀ s, s <:+ qc :: (f ++ sepClose) → tailParse s = none :=
    sfx_q_field f sepClose hf (fun c hc => classW_ne c (hfc c hc)) h3
  have h5 : ∀ s, s <:+ [' ', 'f', 'i', 'x', 'e', 'd', '='] ++ (qc :: (f ++ sepClose)) → tailParse s = none :=
    sfx_block _ _ (by decide) h4
  have h6 : ∀ s, s <:+ sepFixed ++ (f ++ sepClose) → tailParse s = none :=
    sfx_cons qc _ (tailParse_qs_nm 'f' _ (by decide)) h5
  have h7 : ∀ s, s <:+ t ++ (sepFixed ++ (f ++ sepClose)) → tailParse s = none :=
    sfx_block t _ (fun c hc => (classDT_ne c (htc c hc)).1) h6
  have h8 : ∀ s, s <:+ qc :: (t ++ (sepFixed ++ (f ++ sepClose))) → tailParse s = none :=
    sfx_q_field t _ ht (fun c hc => classDT_ne c (htc c hc)) h7
  have h9 : ∀ s, s <:+ [' ', 't', 'o', 'l', 'e', 'r', 'a', 'n', 'c', 'e', '='] ++ (qc :: (t ++ (sepFixed ++ (f ++ sepClose)))) → tailParse s = none :=
    sfx_block _ _ (by decide) h8
  have h10 : ∀ s, s <:+ sepTol ++ (t ++ (sepFixed ++ (f ++ sepClose))) → tailParse s = none :=
    sfx_cons qc _ (tailParse_qs_nm 't' _ (by decide)) h9
  have h11 : ∀ s, s <:+ d ++ (sepTol ++ (t ++ (sepFixed ++ (f ++ sepClose)))) → tailParse s = none :=
    sfx_block d _ (fun c hc => (classDT_ne c (hdc c hc)).1) h10
  have h12 : ∀ s, s <:+ qc :: (d ++ (sepTol ++ (t ++ (sepFixed ++ (f ++ sepClose))))) → tailParse s = none :=
    sfx_q_field d _ hd (fun c hc => classDT_ne c (hdc c hc)) h11
  have h13 : ∀ s, s <:+ [' ', 'd', 'e', 'l', 't', 'a', '='] ++ (qc :: (d ++ (sepTol ++ (t ++ (sepFixed ++ (f ++ sepClose)))))) → tailParse s = none :=
    sfx_block _ _ (by decide) h12
  have h14 : ∀ s, s <:+ sepDelta ++ (d ++ (sepTol ++ (t ++ (sepFixed ++ (f ++ sepClose))))) → tailParse s = none :=
    sfx_cons qc _ (tailParse_qs_nm 'd' _ (by decide)) h13
  have h15 : ∀ s, s <:+ mx ++ (sepDelta ++ (d ++ (sepTol ++ (t ++ (sepFixed ++ (f ++ sepClose)))))) → tailParse s = none :=
    sfx_block mx _ (fun c hc => (class23_ne c (hmxc c hc)).1) h14
  have h16 : ∀ s, s <:+ qc :: (mx ++ (sepDelta ++ (d ++ (sepTol ++ (t ++ (sepFixed ++ (f ++ sepClose))))))) → tailParse s = none :=
    sfx_q_field mx _ hmx (fun c hc => class23_ne c (hmxc c hc)) h15
  have h17 : ∀ s, s <:+ [' ', 'm', 'a', 'x', '='] ++ (qc :: (mx ++ (sepDelta ++ (d ++ (sepTol ++ (t ++ (sepFixed ++ (f ++ sepClose)))))))) → tailParse s = none :=
    sfx_block _ _ (by decide) h16
  have h18 : ∀ s, s <:+ sepMax ++ (mx ++ (sepDelta ++ (d ++ (sepTol ++ (t ++ (sepFixed ++ (f ++ sepClose))))))) → tailParse s = none :=
    sfx_cons qc _ (tailParse_qsm_ni 'a' _ (by decide)) h17
  have h19 : ∀ s, s <:+ mn ++ (sepMax ++ (mx ++ (sepDelta ++ (d ++ (sepTol ++ (t ++ (sepFixed ++ (f ++ sepClose)))))))) → tailParse s = none :=
    sfx_block mn _ (fun c hc => (class23_ne c (hmnc c hc)).1) h18
  have h20 : ∀ s, s <:+ qc :: (mn ++ (sepMax ++ (mx ++ (sepDelta ++ (d ++ (sepTol ++ (t ++ (sepFixed ++ (f ++ sepClose))))))))) → tailParse s = none :=
    sfx_q_field mn _ hmn (fun c hc => class23_ne c (hmnc c hc)) h19
  exact sfx_block [' ', 'm', 'i', 'n', '='] _ (by decide) h20

theorem trySplitsAux_spec (body : List Char) (k : Nat) (g : RGroups)
    (hk1 : 1 ≤ k)
    (htp : tailParse (body.drop k) = some g)
    (hnl : noNewline (body.take k) = true)
    (habove : ∀ j, k < j → tailParse (body.drop j) = none) :
    ∀ n, k ≤ n → trySplitsAux body n = some (body.take k, g) := by
  intro n
  induction n with
  | zero => intro h; omega
  | succ n ih =>
    intro hkn
    by_cases hek : k = n + 1
    · subst hek
      unfold trySplitsAux
      rw [htp]
      dsimp only
      rw [if_pos hnl]
    · have hkn2 : k ≤ n := by omega
      unfold trySplitsAux
      rw [habove (n + 1) (by omega)]
      exact ih hkn2

theorem matchRepr_assembled (v mn mx d t f : List Char)
    (hv : v ≠ []) (hvnl : noNewline v = true)
    (hmn : mn ≠ []) (hmnc : ∀ c ∈ mn, class23 c = true)
    (hmx : mx ≠ []) (hmxc : ∀ c ∈ mx, class23 c = true)
    (hd : d ≠ []) (hdc : ∀ c ∈ d, classDT c = true)
    (ht : t ≠ []) (htc : ∀ c ∈ t, classDT c = true)
    (hf : f ≠ []) (hfc : ∀ c ∈ f, classW c = true) :
    matchRepr (hdr ++ v ++ sepMin ++ mn ++ sepMax ++ mx ++ sepDelta ++ d ++
      sepTol ++ t ++ sepFixed ++ f ++ sepClose) = some (v, ⟨mn, mx, d, t, f⟩)
    := by
  have hT0 : hdr ++ v ++ sepMin ++ mn ++ sepMax ++ mx ++ sepDelta ++ d ++
      sepTol ++ t ++ sepFixed ++ f ++ sepClose =
      hdr ++ (v ++ (sepMin ++ (mn ++ (sepMax ++ (mx ++ (sepDelta ++ (d ++ (sepTol ++ (t ++ (sepFixed ++ (f ++ sepClose))))))))))) := by
    simp [List.append_assoc]
  rw [hT0]
  unfold matchRepr
  rw [dropLit_append]
  dsimp only
  have hktail : (v ++ (sepMin ++ (mn ++ (sepMax ++ (mx ++ (sepDelta ++ (d ++ (sepTol ++ (t ++ (sepFixed ++ (f ++ sepClose))))))))))).drop v.length = sepMin ++ (mn ++ (sepMax ++ (mx ++ (sepDelta ++ (d ++ (sepTol ++ (t ++ (sepFixed ++ (f ++ sepClose))))))))) :=
    List.drop_left v _
  have htp : tailParse ((v ++ (sepMin ++ (mn ++ (sepMax ++ (mx ++ (sepDelta ++ (d ++ (sepTol ++ (t ++ (sepFixed ++ (f ++ sepClose))))))))))).drop v.length) = some ⟨mn, mx, d, t, f⟩
      := by
    rw [hktail]
    have h := tailParse_ok mn mx d t f [] hmn hmnc hmx hmxc hd hdc ht htc
      hf hfc
    simp only [List.append_assoc, List.append_nil] at h
    exact h
  have hnl : noNewline ((v ++ (sepMin ++ (mn ++ (sepMax ++ (mx ++ (sepDelta ++ (d ++ (sepTol ++ (t ++ (sepFixed ++ (f ++ sepClose))))))))))).take v.length) = true := by
    rw [List.take_left]
    exact hvnl
  have habove : ∀ j, v.length < j →
      tailParse ((v ++ (sepMin ++ (mn ++ (sepMax ++ (mx ++ (sepDelta ++ (d ++ (sepTol ++ (t ++ (sepFixed ++ (f ++ sepClose))))))))))).drop j) = none := by
    intro j hj
    rw [List.drop_append_eq_append_drop,
      List.drop_eq_nil_of_le (by omega), List.nil_append]
    obtain ⟨i, hi⟩ : ∃ i, j - v.length = i + 1 :=
      ⟨j - v.length - 1, by omega⟩
    rw [hi]
    have hstep : (sepMin ++ (mn ++ (sepMax ++ (mx ++ (sepDelta ++ (d ++ (sepTol ++ (t ++ (sepFixed ++ (f ++ sepClose)))))))))).drop (i + 1) =
        (([' ', 'm', 'i', 'n', '=', qc] ++ (mn ++ (sepMax ++ (mx ++ (sepDelta ++ (d ++ (sepTol ++ (t ++ (sepFixed ++ (f ++ sepClose)))))))))) : List Char).drop i := by
      rfl
    rw [hstep]
    exact tail1_fail mn mx d t f hmn hmnc hmx hmxc hd hdc ht htc hf hfc _
      (List.drop_suffix i _)
  have hspec := trySplitsAux_spec (v ++ (sepMin ++ (mn ++ (sepMax ++ (mx ++ (sepDelta ++ (d ++ (sepTol ++ (t ++ (sepFixed ++ (f ++ sepClose))))))))))) v.length ⟨mn, mx, d, t, f⟩
    (List.length_pos.mpr hv) htp hnl habove (v ++ (sepMin ++ (mn ++ (sepMax ++ (mx ++ (sepDelta ++ (d ++ (sepTol ++ (t ++ (sepFixed ++ (f ++ sepClose))))))))))).length
    (by rw [List.length_append]; omega)
  rw [List.take_left] at hspec
  exact hspec

theorem buildDT_idem (v d t : PyVal) :
    buildDT v (buildDT v d t).1 (buildDT v d t).2 = buildDT v d t := by
  cases v <;> rfl

theorem build_elim (v mn mx d t f : PyVal) (p : CVParameter)
    (h : CVParameter.build v mn mx d t f = .ok p) :
    p = ⟨v, (mn, mx), (buildDT v d t).1, (buildDT v d t).2, f⟩ ∧
    CVParameter.build p.value p.range.1 p.range.2 p.delta p.tolerance p.fixed
      = .ok p := by
  unfold CVParameter.build at h
  cases hc1 : (if mn ≠ PyVal.pnone then chkGe v mn else Except.ok ()) with
  | error e =>
    rw [hc1] at h
    exact absurd h (by simp)
  | ok u =>
    rw [hc1] at h
    dsimp only at h
    cases hc2 : (if mx ≠ PyVal.pnone then chkLe v mx else Except.ok ()) with
    | error e =>
      rw [hc2] at h
      exact absurd h (by simp)
    | ok u2 =>
      rw [hc2] at h
      dsimp only at h
      injection h with h2
      refine ⟨h2.symm, ?_⟩
      rw [← h2]
      show CVParameter.build v mn mx (buildDT v d t).1 (buildDT v d t).2 f =
        _
      unfold CVParameter.build
      rw [hc1]
      dsimp only
      rw [hc2]
      dsimp only
      rw [buildDT_idem]

theorem encBoundB_to_val (v : PyVal) (h : encBoundB v = true) :
    encValB v = true := by
  cases v <;> simpa [encBoundB, encValB] using h

theorem encNumB_to_val (v : PyVal) (h : encNumB v = true) :
    encValB v = true := by
  cases v <;> simpa [encNumB, encValB] using h

theorem c1_round_trip_aux (p : CVParameter)
    (hrebuild : CVParameter.build p.value p.range.1 p.range.2 p.delta
      p.tolerance p.fixed = .ok p)
    (h1 : encValB p.value = true) (h2 : encBoundB p.range.1 = true)
    (h3 : encBoundB p.range.2 = true) (h4 : encNumB p.delta = true)
    (h5 : encNumB p.tolerance = true) (h6 : ∃ b, p.fixed = .pbool b) :
    fromString (reprOf p) = .ok p := by
  obtain ⟨hv1, hvnl⟩ := strOf_val_facts p.value h1
  obtain ⟨hmn1, hmnc⟩ := strOf_bound_facts p.range.1 h2
  obtain ⟨hmx1, hmxc⟩ := strOf_bound_facts p.range.2 h3
  obtain ⟨hd1, hdc⟩ := strOf_num_facts p.delta h4
  obtain ⟨ht1, htc⟩ := strOf_num_facts p.tolerance h5
  obtain ⟨b, hbf⟩ := h6
  obtain ⟨hf1, hfc⟩ : strOf p.fixed ≠ [] ∧
      ∀ c ∈ strOf p.fixed, classW c = true := by
    rw [hbf]
    exact strOf_fixed_facts b
  have hm := matchRepr_assembled (strOf p.value) (strOf p.range.1)
    (strOf p.range.2) (strOf p.delta) (strOf p.tolerance) (strOf p.fixed)
    hv1 hvnl hmn1 hmnc hmx1 hmxc hd1 hdc ht1 htc hf1 hfc
  unfold fromString
  rw [show matchRepr (reprOf p) = some (strOf p.value,
    ⟨strOf p.range.1, strOf p.range.2, strOf p.delta, strOf p.tolerance,
     strOf p.fixed⟩) from hm]
  dsimp only
  rw [convArg_strOf p.value h1]
  dsimp only
  rw [convArg_strOf p.range.1 (encBoundB_to_val _ h2)]
  dsimp only
  rw [convArg_strOf p.range.2 (encBoundB_to_val _ h3)]
  dsimp only
  rw [convArg_strOf p.delta (encNumB_to_val _ h4)]
  dsimp only
  rw [convArg_strOf p.tolerance (encNumB_to_val _ h5)]
  dsimp only
  rw [show convArg (strOf p.fixed) = .ok p.fixed from by
    rw [hbf]
    exact convArg_strOf _ (by cases b <;> decide)]
  dsimp only
  exact hrebuild

theorem alLookup_alSet_self {α : Type} (l : List (String × α)) (k : String)
    (v : α) : alLookup (alSet l k v) k = some v := by
  induction l with
  | nil => simp [alSet, alLookup]
  | cons x l ih =>
    unfold alSet
    by_cases h : x.1 = k
    · rw [if_pos h]
      simp [alLookup]
    · rw [if_neg h]
      show alLookup (x :: alSet l k v) k = some v
      unfold alLookup
      rw [if_neg h]
      exact ih

theorem alLookup_alSet_ne {α : Type} (l : List (String × α)) (k k' : String)
    (v : α) (h : k ≠ k') : alLookup (alSet l k v) k' = alLookup l k' := by
  induction l with
  | nil => simp [alSet, alLookup, h]
  | cons x l ih =>
    unfold alSet
    by_cases hx : x.1 = k
    · rw [if_pos hx]
      show alLookup ((k, v) :: l) k' = alLookup (x :: l) k'
      unfold alLookup
      rw [if_neg h, if_neg (by rw [hx]; exact h)]
    · rw [if_neg hx]
      show alLookup (x :: alSet l k v) k' = alLookup (x :: l) k'
      unfold alLookup
      by_cases hx' : x.1 = k'
      · rw [if_pos hx', if_pos hx']
      · rw [if_neg hx', if_neg hx']
        exact ih

theorem alSet_forall {α : Type} (P : String × α → Prop)
    (l : List (String × α)) (k : String) (v : α)
    (hl : ∀ x ∈ l, P x) (hv : P (k, v)) : ∀ x ∈ alSet l k v, P x := by
  induction l with
  | nil =>
    intro x hx
    rw [alSet] at hx
    rw [List.mem_singleton] at hx
    exact hx ▸ hv
  | cons y l ih =>
    intro x hx
    unfold alSet at hx
    by_cases hy : y.1 = k
    · rw [if_pos hy] at hx
      rcases List.mem_cons.mp hx with rfl | hx
      · exact hv
      · exact hl x (List.mem_cons_of_mem _ hx)
    · rw [if_neg hy] at hx
      rcases List.mem_cons.mp hx with rfl | hx
      · exact hl _ (List.mem_cons_self _ _)
      · exact ih (fun z hz => hl z (List.mem_cons_of_mem _ hz)) x hx

theorem listIndex_get (l : List String) (v : String) (h : v ∈ l) :
    l.get? (listIndex l v) = some v := by
  induction l with
  | nil => exact absurd h (List.not_mem_nil v)
  | cons x l ih =>
    unfold listIndex
    by_cases hx : x = v
    · rw [if_pos hx, hx]
      rfl
    · rw [if_neg hx]
      show l.get? (listIndex l v) = some v
      exact ih (by rcases List.mem_cons.mp h with rfl | h; exact absurd rfl hx
                   ; exact h)

theorem build_fields (v mn mx d t f : PyVal) (p : CVParameter)
    (h : CVParameter.build v mn mx d t f = .ok p) :
    p.value = v ∧ p.range = (mn, mx) ∧ p.delta = (buildDT v d t).1 ∧
      p.tolerance = (buildDT v d t).2 ∧ p.fixed = f := by
  have h2 := (build_elim v mn mx d t f p h).1
  rw [h2]
  exact ⟨rfl, rfl, rfl, rfl, rfl⟩

/-- Every parameter in a (name, parameter) list has calibration disabled. -/
def AllFixed (ps : Params) : Prop := ∀ x ∈ ps, x.2.fixed = .pbool true

theorem allFixed_nil : AllFixed [] := by
  intro x hx
  exact absurd hx (List.not_mem_nil x)

theorem allFixed_alSet (ps : Params) (k : String) (cv : CVParameter)
    (h : AllFixed ps) (hc : cv.fixed = .pbool true) :
    AllFixed (alSet ps k cv) :=
  alSet_forall _ ps k cv h hc

theorem build_fixed_dflt (v mn mx d t : PyVal) (p : CVParameter)
    (h : CVParameter.build v mn mx d t dfltFixed = .ok p) :
    p.fixed = .pbool true :=
  (build_fields v mn mx d t dfltFixed p h).2.2.2.2

theorem exBind_ok {α β : Type} (x : Except PyErr α) (g : α → Except PyErr β)
    (b : β) (h : (x >>= g) = .ok b) : ∃ a, x = .ok a ∧ g a = .ok b := by
  cases x with
  | error e => exact absurd h (by simp [Bind.bind, Except.bind])
  | ok a =>
    refine ⟨a, rfl, ?_⟩
    simpa [Bind.bind, Except.bind] using h

theorem bespokeParam_fixed (category param : String) (val : PyVal)
    (cv : CVParameter) (h : bespokeParam category param val = .ok cv) :
    cv.fixed = .pbool true := by
  unfold bespokeParam at h
  split at h
  · exact build_fixed_dflt _ _ _ _ _ _ h
  · split at h
    · exact build_fixed_dflt _ _ _ _ _ _ h
    · split at h
      · exact build_fixed_dflt _ _ _ _ _ _ h
      · split at h
        · exact build_fixed_dflt _ _ _ _ _ _ h
        · exact build_fixed_dflt _ _ _ _ _ _ h

theorem introLoop_fixed (category : String) (items : List (String × PyVal))
    (ps ps' : Params) (h : introLoop category items ps = .ok ps')
    (hps : AllFixed ps) : AllFixed ps' := by
  induction items generalizing ps with
  | nil =>
    unfold introLoop exFold at h
    injection h with h
    exact h ▸ hps
  | cons pv items ih =>
    unfold introLoop exFold at h
    revert h
    cases hb : (do
        let cv ← bespokeParam category pv.1 pv.2
        return alSet ps pv.1 cv : Except PyErr Params) with
    | error e => intro h; exact absurd h (by simp)
    | ok ps1 =>
      intro h
      obtain ⟨cv, hcv, hret⟩ := exBind_ok _ _ _ hb
      have hps1 : ps1 = alSet ps pv.1 cv := by
        have := hret
        simp only [pure, Except.pure] at this
        injection this with h2
        exact h2.symm
      refine ih ps1 h ?_
      rw [hps1]
      exact allFixed_alSet ps pv.1 cv hps (bespokeParam_fixed _ _ _ _ hcv)

/-- Every parameter an `Except`-valued dict builder can deliver has
calibration disabled. -/
def AllFixedE (eps : Except PyErr Params) : Prop :=
  ∀ ps, eps = .ok ps → AllFixed ps

theorem allFixedE_apply (eps : Except PyErr Params) (ps : Params)
    (h : eps = .ok ps) (he : AllFixedE eps) : AllFixed ps := he ps h

theorem allFixedE_okNil : AllFixedE (.ok []) := by
  intro ps h
  injection h with h2
  exact h2 ▸ allFixed_nil

theorem allFixedE_thenP (eps : Except PyErr Params) (k : String)
    (r : Except PyErr CVParameter) (he : AllFixedE eps)
    (hr : ∀ cv, r = .ok cv → cv.fixed = .pbool true) :
    AllFixedE (thenP eps k r) := by
  intro ps h
  unfold thenP at h
  cases eps with
  | error e => exact absurd h (by simp)
  | ok ps0 =>
    cases r with
    | error e => exact absurd h (by simp)
    | ok cv =>
      have h2 : Except.ok (alSet ps0 k cv) = Except.ok ps := h
      injection h2 with h3
      exact h3 ▸ allFixed_alSet ps0 k cv (he ps0 rfl) (hr cv rfl)

theorem allFixedE_introLoopE (category : String)
    (items : List (String × PyVal)) (eps : Except PyErr Params)
    (he : AllFixedE eps) : AllFixedE (introLoopE category items eps) := by
  intro ps h
  unfold introLoopE at h
  cases eps with
  | error e => exact absurd h (by simp)
  | ok ps0 => exact introLoop_fixed category items ps0 ps h (he ps0 rfl)

theorem allFixedE_error (e : PyErr) : AllFixedE (.error e) := by
  intro ps h
  exact Except.noConfusion h

theorem allFixedE_ite (c : Prop) [Decidable c] (a b : Except PyErr Params)
    (ha : AllFixedE a) (hb : AllFixedE b) : AllFixedE (if c then a else b)
    := by
  by_cases h : c
  · rwa [if_pos h]
  · rwa [if_neg h]

theorem genParams_fixed (env : Env) (category new : String) (ps : Params)
    (h : genParams env category new = .ok ps) : AllFixed ps := by
  unfold genParams at h
  dsimp only at h
  refine allFixedE_apply _ ps h ?_
  repeat'
    first
      | exact allFixedE_okNil
      | exact allFixedE_error _
      | refine allFixedE_ite _ _ _ ?_ ?_
      | refine allFixedE_introLoopE _ _ _ ?_
      | refine allFixedE_thenP _ _ _ ?_
          (fun cv hc => build_fixed_dflt _ _ _ _ _ cv hc)

theorem setBackend_elim (env : Env) (st : EqSt) (category value : String)
    (st' : EqSt) (h : setBackend env st category value = .ok st') :
    ∃ fn ps, fullNames category = some fn ∧ value ∈ algorithms fn ∧
      genParams env category value = .ok ps ∧
      st' = ⟨alSet st.current category (listIndex (algorithms fn) value),
             alSet st.p category ps⟩ := by
  unfold setBackend at h
  cases hf : fullNames category with
  | none =>
    rw [hf] at h
    exact absurd h (by simp)
  | some fn =>
    rw [hf] at h
    dsimp only at h
    split at h
    · cases hg : genParams env category value with
      | error e =>
        rw [hg] at h
        exact absurd h (by simp)
      | ok ps =>
        rw [hg] at h
        dsimp only at h
        injection h with h2
        exact ⟨fn, ps, rfl, by assumption, rfl, h2.symm⟩
    · exact absurd h (by simp)

theorem getBackend_setBackend (env : Env) (st : EqSt)
    (category value : String) (st' : EqSt)
    (h : setBackend env st category value = .ok st') :
    getBackend st' category = .ok value := by
  obtain ⟨fn, ps, hf, hmem, hg, hst⟩ := setBackend_elim env st category value
    st' h
  unfold getBackend
  rw [hf, hst]
  dsimp only
  rw [alLookup_alSet_self]
  dsimp only
  rw [listIndex_get (algorithms fn) value hmem]

theorem fromString_ok_build (raw : List Char) (p : CVParameter)
    (h : fromString raw = .ok p) :
    ∃ v mn mx d t f, CVParameter.build v mn mx d t f = .ok p := by
  unfold fromString at h
  split at h
  · exact Except.noConfusion h
  · split at h
    all_goals try split at h
    all_goals try split at h
    all_goals try split at h
    all_goals try split at h
    all_goals try split at h
    all_goals
      first
        | exact Except.noConfusion h
        | exact ⟨_, _, _, _, _, _, h⟩

/-- The introspection environment of a backend object exposing no readable
numeric/boolean attributes. -/
def env0 : Env := fun _ _ => []

/-- The `similarity` parameter `CVParameter(0.9, 0.0, 1.0, 0.1, 0.1)`. -/
def simParam : CVParameter :=
  { value := .pfloat (mkRat 9 10), range := (.pfloat 0, .pfloat 1),
    delta := .pfloat (mkRat 1 10), tolerance := .pfloat (mkRat 1 10),
    fixed := .pbool true }

/-- The four find-method parameters generated for the `hybrid` algorithm. -/
def findHybridParams : Params :=
  [("similarity", simParam),
   ("ransacReprojThreshold",
    { value := .pfloat 0, range := (.pfloat 0, .pfloat 200),
      delta := .pfloat 10, tolerance := .pfloat 1, fixed := .pbool true }),
   ("nocolor",
    { value := .pbool false, range := (.pnone, .pnone), delta := .pfloat 0,
      tolerance := .pfloat 1, fixed := .pbool true }),
   ("front_similarity",
    { value := .pfloat (mkRat 8 10), range := (.pfloat 0, .pfloat 1),
      delta := .pfloat (mkRat 1 10), tolerance := .pfloat (mkRat 1 10),
      fixed := .pbool true })]

theorem genParams_find_hybrid (env : Env) :
    genParams env ("find") ("hybrid") = .ok findHybridParams := rfl

/-- A `bytes` parameter as an old BRIEF extractor would expose it. -/
def bytesParam : CVParameter :=
  { value := .pint 32, range := (.pnone, .pnone), delta := .pint 1,
    tolerance := .pfloat (mkRat 9 10), fixed := .pbool true }

/-- A registry whose `fextract` category holds a parameter named `bytes`. -/
def stBytes : EqSt :=
  { current := [("fextract", 0)],
    p := [("fextract", [("bytes", bytesParam)])] }

/-- Claim C3 (code bug): `can_calibrate(True, "fextract")` sets
`fixed = False` even on the parameter named `bytes`, although the
`BUG: force fix parameters that have internal bugs` branch is meant to keep
it fixed - the source compares the `CVParameter` object (the dict value),
not the parameter's name, with the string `"bytes"`, so the exception
branch can never fire. -/
theorem c3_bytes_param_not_kept_fixed :
    canCalibrate stBytes true ("fextract") =
      .ok { current := [("fextract", 0)],
            p := [("fextract",
              [("bytes", { bytesParam with fixed := .pbool false })])] } := by
  decide

/-- Claim C4: a successful `set_backend(category, value)` replaces the
category's parameter mapping with the freshly generated category- and
algorithm-specific defaults - a value depending only on the introspection
environment, the category and the algorithm, never on the prior mapping -
and records the new selection; any prior manual edit is discarded, also
when `value` is the already-selected algorithm. -/
theorem c4_set_algorithm_resets (env : Env) (st : EqSt)
    (category value : String) (st' : EqSt)
    (h : setBackend env st category value = .ok st') :
    ∃ ps, genParams env category value = .ok ps ∧
      alLookup st'.p category = some ps ∧
      getBackend st' category = .ok value := by
  obtain ⟨fn, ps, hf, hmem, hg, hst⟩ := setBackend_elim env st category value
    st' h
  refine ⟨ps, hg, ?_, getBackend_setBackend env st category value st' h⟩
  rw [hst]
  exact alLookup_alSet_self _ _ _

/-- A registry with a manually edited `similarity` value for `find`. -/
def stEdited : EqSt :=
  { current := [("find", 3)],
    p := [("find", [("similarity",
      { simParam with value := .pfloat (mkRat 1 2) })])] }

/-- The registry state after `stEdited` re-selects the `hybrid` finder. -/
def stAfterC4 : EqSt :=
  { current := [("find", 3)], p := [("find", findHybridParams)] }

theorem c4_set_algorithm_resets_witness :
    setBackend env0 stEdited ("find") ("hybrid") = .ok stAfterC4 ∧
    (∃ ps, genParams env0 ("find") ("hybrid") = .ok ps ∧
      alLookup stAfterC4.p ("find") = some ps ∧
      getBackend stAfterC4 ("find") = .ok ("hybrid")) :=
  ⟨by decide,
   c4_set_algorithm_resets env0 stEdited ("find") ("hybrid") stAfterC4
     (by decide)⟩

/-- Claim C5: `set_backend` with a value outside the category's catalog
raises the typed `ImageFinderMethodError` before touching `_current` or
`p` (the membership test is the first statement of the method). -/
theorem c5_unsupported_algorithm_rejected (env : Env) (st : EqSt)
    (category value fn : String) (hf : fullNames category = some fn)
    (hv : value ∉ algorithms fn) :
    setBackend env st category value = .error .imageFinderMethodError := by
  unfold setBackend
  rw [hf]
  dsimp only
  rw [if_neg hv]

theorem c5_unsupported_algorithm_rejected_witness :
    fullNames ("find") = some ("find_methods") ∧
    ("not-a-real-algorithm") ∉ algorithms ("find_methods") ∧
    setBackend env0 initSt ("find") ("not-a-real-algorithm") =
      .error .imageFinderMethodError :=
  ⟨by decide, by decide,
   c5_unsupported_algorithm_rejected env0 initSt ("find")
     ("not-a-real-algorithm") ("find_methods") (by decide) (by decide)⟩

/-- Claim C6 (amended): an unknown category key makes `get_backend` and
`set_backend` fail immediately with the builtin `KeyError` of the
`full_names[category]` dict lookup (a generic exception, not the typed
error), while `can_calibrate` alone raises the typed
`ImageFinderMethodError`; none of them mutates any state. -/
theorem c6_unknown_category_errors (env : Env) (st : EqSt) (c v : String)
    (mark : Bool) (hf : fullNames c = none) (hp : alLookup st.p c = none) :
    getBackend st c = .error .keyError ∧
    setBackend env st c v = .error .keyError ∧
    canCalibrate st mark c = .error .imageFinderMethodError := by
  have h2 : hasKey st.p c = false := by
    unfold hasKey
    rw [hp]
    rfl
  refine ⟨?_, ?_, ?_⟩
  · unfold getBackend
    rw [hf]
  · unfold setBackend
    rw [hf]
  · unfold canCalibrate
    rw [h2, if_pos rfl]

theorem c6_unknown_category_errors_witness :
    (fullNames ("colour") = none ∧ alLookup initSt.p ("colour") = none) ∧
    (getBackend initSt ("colour") = .error .keyError ∧
     setBackend env0 initSt ("colour") ("ORB") = .error .keyError ∧
     canCalibrate initSt true ("colour") = .error .imageFinderMethodError) :=
  ⟨⟨by decide, by decide⟩,
   c6_unknown_category_errors env0 initSt ("colour") ("ORB") true (by decide)
     (by decide)⟩

/-- Claim C6 counterexample: on an unknown category, `get_backend` and
`set_backend` surface the builtin `KeyError` of the `full_names` dict
lookup, a generic exception distinct from the typed
`ImageFinderMethodError` the claim requires for all three operations. -/
theorem c6_counterexample :
    getBackend initSt ("colour") = .error .keyError ∧
    setBackend env0 initSt ("colour") ("ORB") = .error .keyError ∧
    PyErr.keyError ≠ PyErr.imageFinderMethodError := by
  decide

/-- Claim C7: a parameter that leaves the constructor - directly or at the
end of `from_string`, which rebuilds through the constructor - has
`delta = 0.0, tolerance = 1.0` whenever its value is a bool and
`delta = 1, tolerance = 0.9` whenever its value is a (non-bool) int,
regardless of the caller-supplied or stored delta/tolerance. -/
theorem c7_forced_delta_tolerance (p : CVParameter)
    (h : (∃ v mn mx d t f, CVParameter.build v mn mx d t f = .ok p) ∨
      ∃ raw, fromString raw = .ok p) :
    (∀ b, p.value = .pbool b →
      p.delta = .pfloat 0 ∧ p.tolerance = .pfloat 1) ∧
    (∀ n : Int, p.value = .pint n →
      p.delta = .pint 1 ∧ p.tolerance = .pfloat (9 / 10)) := by
  have hb : ∃ v mn mx d t f, CVParameter.build v mn mx d t f = .ok p := by
    rcases h with h | ⟨raw, hr⟩
    · exact h
    · exact fromString_ok_build raw p hr
  obtain ⟨v, mn, mx, d, t, f, hbuild⟩ := hb
  obtain ⟨hval, -, hdelta, htol, -⟩ := build_fields v mn mx d t f p hbuild
  constructor
  · intro b hvb
    rw [hval] at hvb
    subst hvb
    exact ⟨hdelta, htol⟩
  · intro n hvn
    rw [hval] at hvn
    subst hvn
    refine ⟨hdelta, ?_⟩
    rw [htol]
    show PyVal.pfloat (mkRat 9 10) = PyVal.pfloat (9 / 10)
    congr 1
    rw [Rat.mkRat_eq_divInt, Rat.divInt_eq_div]
    norm_num

/-- The parameter `CVParameter(85)` (the `oldSURFdetect` default). -/
def intParam : CVParameter :=
  { value := .pint 85, range := (.pnone, .pnone), delta := .pint 1,
    tolerance := .pfloat (mkRat 9 10), fixed := .pbool true }

theorem c7_forced_delta_tolerance_witness :
    CVParameter.build (.pint 85) .pnone .pnone (.pfloat 1)
      (.pfloat (mkRat 1 10)) (.pbool true) = .ok intParam ∧
    (intParam.delta = .pint 1 ∧ intParam.tolerance = .pfloat (9 / 10)) :=
  ⟨by decide,
   (c7_forced_delta_tolerance intParam
     (.inl ⟨.pint 85, .pnone, .pnone, .pfloat 1, .pfloat (mkRat 1 10),
       .pbool true, by decide⟩)).2 85 rfl⟩

/-- Claim C9: selecting `hybrid` for the find-method category makes the
category's mapping exactly `similarity = 0.9`,
`ransacReprojThreshold = 0.0`, `nocolor = False`,
`front_similarity = 0.8`. -/
theorem c9_hybrid_find_params (env : Env) (st st' : EqSt)
    (h : setBackend env st ("find") ("hybrid") = .ok st') :
    alLookup st'.p ("find") = some findHybridParams := by
  obtain ⟨fn, ps, hf, hmem, hg, hst⟩ := setBackend_elim env st _ _ st' h
  rw [genParams_find_hybrid env] at hg
  injection hg with hg2
  rw [hst]
  show alLookup (alSet st.p _ ps) _ = _
  rw [alLookup_alSet_self, ← hg2]

/-- The registry state after selecting `hybrid` on a fresh registry. -/
def stAfterFH : EqSt :=
  { current := [("find", 3)],
    p := [("find", findHybridParams), ("tmatch", []), ("fextract", []),
          ("fmatch", []), ("fdetect", [])] }

theorem c9_hybrid_find_params_witness :
    setBackend env0 initSt ("find") ("hybrid") = .ok stAfterFH ∧
    alLookup stAfterFH.p ("find") = some findHybridParams :=
  ⟨by decide, c9_hybrid_find_params env0 initSt stAfterFH (by decide)⟩

/-- Claim C10: every parameter created by the default-parameter generation
of a successful `set_backend` call is constructed with the constructor's
default `fixed = True`, so right after the call every parameter of the
category has calibration disabled. -/
theorem c10_defaults_all_fixed (env : Env) (st : EqSt)
    (category value : String) (st' : EqSt) (ps : Params)
    (h : setBackend env st category value = .ok st')
    (hps : alLookup st'.p category = some ps) :
    ∀ x ∈ ps, x.2.fixed = .pbool true := by
  obtain ⟨fn, ps0, hf, hmem, hg, hst⟩ := setBackend_elim env st category
    value st' h
  rw [hst] at hps
  have hps2 : alLookup (alSet st.p category ps0) category = some ps := hps
  rw [alLookup_alSet_self] at hps2
  injection hps2 with hps3
  exact hps3 ▸ genParams_fixed env category value ps0 hg

theorem c10_defaults_all_fixed_witness :
    setBackend env0 initSt ("find") ("hybrid") = .ok stAfterFH ∧
    alLookup stAfterFH.p ("find") = some findHybridParams ∧
    ∀ x ∈ findHybridParams, x.2.fixed = PyVal.pbool true :=
  ⟨by decide, by decide,
   c10_defaults_all_fixed env0 initSt ("find") ("hybrid") stAfterFH
     findHybridParams (by decide) (by decide)⟩

/-- Claim C1 (amended): the textual round trip holds for every parameter
the constructor accepts whose rendered fields the decoding regex and the
per-group converters can read back: `None`/bool/nonnegative-int/
nonnegative-decimal-float value, `None` or nonnegative numeric bounds,
nonnegative numeric delta and tolerance, bool fixed flag. Negative or
non-decimal numbers are constructible but not decodable, since the regex
character classes contain no sign. -/
theorem c1_round_trip (v mn mx d t f : PyVal) (p : CVParameter)
    (hb : CVParameter.build v mn mx d t f = .ok p)
    (h1 : encValB p.value = true) (h2 : encBoundB p.range.1 = true)
    (h3 : encBoundB p.range.2 = true) (h4 : encNumB p.delta = true)
    (h5 : encNumB p.tolerance = true) (h6 : ∃ b, p.fixed = .pbool b) :
    fromString (reprOf p) = .ok p :=
  c1_round_trip_aux p (build_elim v mn mx d t f p hb).2 h1 h2 h3 h4 h5 h6

theorem c1_round_trip_witness :
    CVParameter.build (.pfloat (mkRat 9 10)) (.pfloat 0) (.pfloat 1)
      (.pfloat (mkRat 1 10)) (.pfloat (mkRat 1 10)) (.pbool true) =
      .ok simParam ∧
    fromString (reprOf simParam) = .ok simParam :=
  ⟨by decide,
   c1_round_trip (.pfloat (mkRat 9 10)) (.pfloat 0) (.pfloat 1)
     (.pfloat (mkRat 1 10)) (.pfloat (mkRat 1 10)) (.pbool true) simParam
     (by decide) (by decide) (by decide) (by decide) (by decide) (by decide)
     ⟨true, rfl⟩⟩

/-- A constructible parameter holding a negative value. -/
def negParam : CVParameter :=
  { value := .pfloat (-1), range := (.pnone, .pnone), delta := .pfloat 1,
    tolerance := .pfloat (mkRat 1 10), fixed := .pbool true }

/-- Claim C1 counterexample: `CVParameter(-1.0)` is accepted by the
constructor, yet decoding its own representation raises `ValueError`
because the sign character defeats every converter, so the round trip
fails on a constructible parameter. -/
theorem c1_counterexample :
    CVParameter.build (.pfloat (-1)) .pnone .pnone (.pfloat 1)
      (.pfloat (mkRat 1 10)) (.pbool true) = .ok negParam ∧
    fromString (reprOf negParam) = .error .valueError := by
  decide

theorem notOk_error {α : Type} (x : Except PyErr α) (h : ∀ r, x ≠ .ok r) :
    ∃ e, x = .error e := by
  cases x with
  | error e => exact ⟨e, rfl⟩
  | ok a => exact absurd rfl (h a)

theorem exFold_stuck {σ α : Type} (f : σ → α → Except PyErr σ) (x : α)
    (hf : ∀ s r, f s x ≠ .ok r) :
    ∀ l, x ∈ l → ∀ s r, exFold f s l ≠ .ok r := by
  intro l
  induction l with
  | nil => intro hx; exact absurd hx (List.not_mem_nil x)
  | cons y l ih =>
    intro hx s r h
    unfold exFold at h
    revert h
    cases hfy : f s y with
    | error e => exact fun h => Except.noConfusion h
    | ok s1 =>
      intro h
      rcases List.mem_cons.mp hx with hxe | hx2
      · exact hf s s1 (by rw [hxe]; exact hfy)
      · exact ih hx2 s1 r h

theorem applyOpt_stuck (category opt : String) (txt : List Char)
    (e : PyErr) (h : fromString txt = .error e) (s r : EqSt) :
    applyOpt category s (opt, txt) ≠ .ok r := by
  intro hr
  unfold applyOpt at hr
  dsimp only at hr
  rw [h] at hr
  exact Except.noConfusion hr

theorem processCat_stuck (env : Env) (file : MatchFile) (category : String)
    (sec : MSec) (opt : String) (txt : List Char) (e : PyErr)
    (hsec : alLookup file category = some sec)
    (hopt : (opt, txt) ∈ sec.opts)
    (he : fromString txt = .error e) (s r : EqSt) :
    processCat env file s category ≠ .ok r := by
  intro h
  unfold processCat at h
  rw [hsec] at h
  dsimp only at h
  revert h
  cases getBackend s category with
  | error e2 => exact fun h => Except.noConfusion h
  | ok cur =>
    intro h
    dsimp only at h
    revert h
    cases (if sec.backend ≠ cur then setBackend env s category sec.backend
           else Except.ok s) with
    | error e2 => exact fun h => Except.noConfusion h
    | ok s2 =>
      exact fun h => exFold_stuck (applyOpt category) (opt, txt)
        (fun s3 r3 => applyOpt_stuck category opt txt e he s3 r3)
        sec.opts hopt s2 r h

/-- Claim C8 (amended): a stored option whose text the six-group regex
cannot match at its start makes the decode raise `AttributeError` (from
`None.group`), and when such an option sits in a present section of a
processed category, `from_match_file` fails instead of returning a
registry. Trailing junk after a well-formed representation is not
"malformed" in this sense: `re.match` anchors only at the start and
accepts it. -/
theorem c8_decode_failure (raw : List Char) (env : Env) (st : EqSt)
    (file : MatchFile) (category opt : String) (sec : MSec)
    (hraw : matchRepr raw = none)
    (hcat : category ∈ st.p.map Prod.fst)
    (hsec : alLookup file category = some sec)
    (hopt : (opt, raw) ∈ sec.opts) :
    fromString raw = .error .attributeError ∧
      ∀ r, fromMatchFile env st file ≠ .ok r := by
  have hfs : fromString raw = .error .attributeError := by
    unfold fromString
    rw [hraw]
  refine ⟨hfs, fun r => ?_⟩
  unfold fromMatchFile
  exact exFold_stuck (processCat env file) category
    (fun s2 r2 => processCat_stuck env file category sec opt raw
      .attributeError hsec hopt hfs s2 r2)
    (st.p.map Prod.fst) hcat st r

/-- A stored option text that the representation regex cannot match. -/
def garbageTxt : List Char := ['g', 'a', 'r', 'b', 'a', 'g', 'e']

/-- A parsed `.match` file whose `fextract` section stores unreadable text
for the `bytes` option. -/
def fileC8 : MatchFile :=
  [("fextract", MSec.mk ("fextract_methods") [(("bytes"), garbageTxt)])]

theorem c8_decode_failure_witness :
    (matchRepr garbageTxt = none ∧
      ("fextract") ∈ stBytes.p.map Prod.fst ∧
      alLookup fileC8 ("fextract") =
        some (MSec.mk ("fextract_methods") [(("bytes"), garbageTxt)]) ∧
      (("bytes"), garbageTxt) ∈
        (MSec.mk ("fextract_methods") [(("bytes"), garbageTxt)]).opts) ∧
    (fromString garbageTxt = .error .attributeError ∧
      ∀ r, fromMatchFile env0 stBytes fileC8 ≠ .ok r) :=
  ⟨⟨by decide, by decide, by decide, by decide⟩,
   c8_decode_failure garbageTxt env0 stBytes fileC8 ("fextract") ("bytes")
     (MSec.mk ("fextract_methods") [(("bytes"), garbageTxt)]) (by decide)
     (by decide) (by decide) (by decide)⟩

/-- Claim C8 counterexample: appending arbitrary junk to a well-formed
representation still decodes successfully - the decoder does not reject
every string that is not exactly a parameter representation. -/
theorem c8_counterexample :
    fromString (reprOf simParam ++ garbageTxt) = .ok simParam := by
  decide

/-- The key list of a parameter dict. -/
def keysOf (ps : Params) : List String := ps.map Prod.fst

/-- Whether an exceptional computation returned normally. -/
def isOkE {α : Type} : Except PyErr α → Bool
  | .ok _ => true
  | .error _ => false

/-- For a configured category of `st`, the generated defaults for its
selected backend exist and carry exactly the stored parameter names. -/
def genKeysOkB (env : Env) (st : EqSt) (c : String) : Bool :=
  match getBackend st c with
  | .error _ => true
  | .ok b =>
    match genParams env c b with
    | .error _ => false
    | .ok ps0 => decide (keysOf ps0 = keysOf ((alLookup st.p c).getD []))

/-- When the fresh registry already selects the saved backend for `c`, its
resident parameter dict carries exactly the stored parameter names. -/
def freshKeysOkB (f st : EqSt) (c : String) : Bool :=
  match getBackend f c, getBackend st c with
  | .ok cur, .ok b =>
    if cur = b then
      decide (keysOf ((alLookup f.p c).getD []) =
        keysOf ((alLookup st.p c).getD []))
    else true
  | _, _ => true

theorem mem_keys_lookup {α : Type} (l : List (String × α)) (c : String)
    (h : c ∈ l.map Prod.fst) : ∃ v, alLookup l c = some v := by
  induction l with
  | nil => exact absurd h (List.not_mem_nil c)
  | cons kv l ih =>
    obtain ⟨k2, v2⟩ := kv
    rw [List.map_cons] at h
    by_cases hk : k2 = c
    · exact ⟨v2, by unfold alLookup; rw [if_pos hk]⟩
    · rcases List.mem_cons.mp h with h1 | h2
      · exact absurd h1.symm hk
      · obtain ⟨v, hv⟩ := ih h2
        exact ⟨v, by unfold alLookup; rw [if_neg hk]; exact hv⟩

theorem hasKey_elim {α : Type} (l : List (String × α)) (k : String)
    (h : hasKey l k = true) : ∃ v, alLookup l k = some v := by
  unfold hasKey at h
  revert h
  cases hl : alLookup l k with
  | none => exact fun h => Bool.noConfusion h
  | some v => exact fun _ => ⟨v, rfl⟩

theorem isOkE_elim {α : Type} (x : Except PyErr α) (h : isOkE x = true) :
    ∃ a, x = .ok a := by
  revert h
  cases x with
  | ok a => exact fun _ => ⟨a, rfl⟩
  | error e => exact fun h => Bool.noConfusion h

theorem getBackend_congr (s t : EqSt) (c : String)
    (h : alLookup s.current c = alLookup t.current c) :
    getBackend s c = getBackend t c := by
  unfold getBackend
  rw [h]

theorem getBackend_elim (s : EqSt) (c b : String)
    (h : getBackend s c = .ok b) :
    ∃ fn idx, fullNames c = some fn ∧ alLookup s.current c = some idx ∧
      (algorithms fn).get? idx = some b := by
  unfold getBackend at h
  revert h
  cases hf : fullNames c with
  | none => exact fun h => Except.noConfusion h
  | some fn =>
    intro h
    dsimp only at h
    revert h
    cases hc : alLookup s.current c with
    | none => exact fun h => Except.noConfusion h
    | some idx =>
      intro h
      dsimp only at h
      revert h
      cases hg : (algorithms fn).get? idx with
      | none => exact fun h => Except.noConfusion h
      | some b2 =>
        intro h
        injection h with h2
        exact ⟨fn, idx, rfl, rfl, by rw [← h2]; exact hg⟩

theorem setBackend_ok (env : Env) (s : EqSt) (c v fn : String) (ps : Params)
    (hf : fullNames c = some fn) (hv : v ∈ algorithms fn)
    (hg : genParams env c v = .ok ps) :
    setBackend env s c v =
      .ok { current := alSet s.current c (listIndex (algorithms fn) v),
            p := alSet s.p c ps } := by
  unfold setBackend
  rw [hf]
  dsimp only
  rw [if_pos hv, hg]

theorem exMap_cons_elim {α β : Type} (g : α → Except PyErr β) (x : α)
    (l : List α) (out : List β) (h : exMap g (x :: l) = .ok out) :
    ∃ y ys, g x = .ok y ∧ exMap g l = .ok ys ∧ out = y :: ys := by
  unfold exMap at h
  revert h
  cases hg : g x with
  | error e => exact fun h => Except.noConfusion h
  | ok y =>
    intro h
    dsimp only at h
    revert h
    cases hm : exMap g l with
    | error e => exact fun h => Except.noConfusion h
    | ok ys =>
      intro h
      injection h with h2
      exact ⟨y, ys, rfl, rfl, h2.symm⟩

theorem toMF_aux (st : EqSt) :
    ∀ (l : List (String × Params)) (file : MatchFile),
    exMap (fun cps =>
      match getBackend st cps.1 with
      | .error e => .error e
      | .ok b =>
        .ok (cps.1, MSec.mk b (cps.2.map (fun np => (np.1, reprOf np.2)))))
      l = .ok file →
    ∀ c ps, alLookup l c = some ps → ∃ b, getBackend st c = .ok b ∧
      alLookup file c =
        some (MSec.mk b (ps.map (fun np => (np.1, reprOf np.2)))) := by
  intro l
  induction l with
  | nil =>
    intro file h c ps hc
    exact Option.noConfusion hc
  | cons cps l ih =>
    intro file h c ps hc
    obtain ⟨c0, ps0⟩ := cps
    obtain ⟨y, ys, hgx, hml, hout⟩ := exMap_cons_elim _ _ _ _ h
    dsimp only at hgx
    revert hgx
    cases hgb : getBackend st c0 with
    | error e => exact fun hgx => Except.noConfusion hgx
    | ok b0 =>
      intro hgx
      injection hgx with hy
      subst hout
      subst hy
      unfold alLookup at hc
      by_cases hk : c0 = c
      · rw [if_pos hk] at hc
        injection hc with hc2
        subst hc2
        refine ⟨b0, by rw [← hk]; exact hgb, ?_⟩
        unfold alLookup
        rw [if_pos hk]
      · rw [if_neg hk] at hc
        obtain ⟨b, hb1, hb2⟩ := ih ys hml c ps hc
        refine ⟨b, hb1, ?_⟩
        unfold alLookup
        rw [if_neg hk]
        exact hb2

theorem toMatchFile_lookup (st : EqSt) (file : MatchFile) (c : String)
    (ps : Params) (h : toMatchFile st = .ok file)
    (hc : alLookup st.p c = some ps) :
    ∃ b, getBackend st c = .ok b ∧
      alLookup file c =
        some (MSec.mk b (ps.map (fun np => (np.1, reprOf np.2)))) := by
  unfold toMatchFile at h
  exact toMF_aux st st.p file h c ps hc

theorem applyOpt_elim (c : String) (s : EqSt) (ot : String × List Char)
    (s1 : EqSt) (h : applyOpt c s ot = .ok s1) :
    ∃ par ps, fromString ot.2 = .ok par ∧ alLookup s.p c = some ps ∧
      s1 = { s with p := alSet s.p c (alSet ps ot.1 par) } := by
  unfold applyOpt at h
  revert h
  cases hfs : fromString ot.2 with
  | error e => exact fun h => Except.noConfusion h
  | ok par =>
    intro h
    dsimp only at h
    revert h
    cases hps : alLookup s.p c with
    | none => exact fun h => Except.noConfusion h
    | some ps =>
      intro h
      dsimp only at h
      injection h with h2
      exact ⟨par, ps, rfl, rfl, h2.symm⟩

theorem exFold_applyOpt (c : String) :
    ∀ (ps : Params) (s : EqSt) (ps0 : Params),
    alLookup s.p c = some ps0 →
    (∀ np ∈ ps, fromString (reprOf np.2) = .ok np.2) →
    ∃ s2, exFold (applyOpt c) s (ps.map (fun np => (np.1, reprOf np.2))) =
        .ok s2 ∧
      s2.current = s.current ∧
      alLookup s2.p c =
        some (List.foldl (fun acc np => alSet acc np.1 np.2) ps0 ps) ∧
      ∀ c2, c2 ≠ c → alLookup s2.p c2 = alLookup s.p c2 := by
  intro ps
  induction ps with
  | nil =>
    intro s ps0 hl _
    exact ⟨s, rfl, rfl, hl, fun _ _ => rfl⟩
  | cons np ps ih =>
    intro s ps0 hl hdec
    have hfs : fromString (reprOf np.2) = .ok np.2 :=
      hdec np (List.mem_cons_self np ps)
    have h1 : applyOpt c s (np.1, reprOf np.2) =
        .ok { s with p := alSet s.p c (alSet ps0 np.1 np.2) } := by
      unfold applyOpt
      dsimp only
      rw [hfs, hl]
    obtain ⟨s2, h2, hcur, hlook, hother⟩ :=
      ih { s with p := alSet s.p c (alSet ps0 np.1 np.2) }
        (alSet ps0 np.1 np.2) (alLookup_alSet_self _ _ _)
        (fun np2 hm => hdec np2 (List.mem_cons_of_mem np hm))
    refine ⟨s2, ?_, hcur, hlook, ?_⟩
    · simp only [List.map_cons]
      unfold exFold
      rw [h1]
      exact h2
    · intro c2 hne
      rw [hother c2 hne]
      exact alLookup_alSet_ne s.p c c2 _ (fun he => hne he.symm)

theorem foldl_alSet_cons (k : String) (v : CVParameter) :
    ∀ (ps : Params) (acc : Params), (∀ np ∈ ps, np.1 ≠ k) →
    List.foldl (fun acc2 np => alSet acc2 np.1 np.2) ((k, v) :: acc) ps =
      (k, v) :: List.foldl (fun acc2 np => alSet acc2 np.1 np.2) acc ps := by
  intro ps
  induction ps with
  | nil => intro acc _; rfl
  | cons np ps ih =>
    intro acc hk
    have hne : ¬(k = np.1) :=
      fun h => hk np (List.mem_cons_self np ps) h.symm
    have h1 : alSet ((k, v) :: acc) np.1 np.2 =
        (k, v) :: alSet acc np.1 np.2 := by
      simp only [alSet, if_neg hne]
    show List.foldl (fun acc2 np2 => alSet acc2 np2.1 np2.2)
      (alSet ((k, v) :: acc) np.1 np.2) ps = _
    rw [h1, ih (alSet acc np.1 np.2)
      (fun np2 h2 => hk np2 (List.mem_cons_of_mem np h2))]
    rfl

theorem foldl_alSet_restore :
    ∀ (ps ps0 : Params), keysOf ps0 = keysOf ps → (keysOf ps).Nodup →
    List.foldl (fun acc np => alSet acc np.1 np.2) ps0 ps = ps := by
  intro ps
  induction ps with
  | nil =>
    intro ps0 hk _
    unfold keysOf at hk
    rw [List.map_nil] at hk
    rw [List.map_eq_nil.mp hk]
    rfl
  | cons np ps ih =>
    intro ps0 hk hnd
    obtain ⟨nk, nv⟩ := np
    obtain ⟨q, ps0t, rfl⟩ : ∃ q ps0t, ps0 = q :: ps0t := by
      cases ps0 with
      | nil =>
        unfold keysOf at hk
        rw [List.map_nil, List.map_cons] at hk
        exact absurd hk (by simp)
      | cons q t => exact ⟨q, t, rfl⟩
    obtain ⟨qk, qv⟩ := q
    unfold keysOf at hk
    rw [List.map_cons, List.map_cons] at hk
    injection hk with hk1 hk2
    unfold keysOf at hnd
    rw [List.map_cons] at hnd
    have hnm : nk ∉ ps.map Prod.fst := (List.nodup_cons.mp hnd).1
    have hnd2 : (ps.map Prod.fst).Nodup := (List.nodup_cons.mp hnd).2
    have h1 : alSet ((qk, qv) :: ps0t) nk nv = (nk, nv) :: ps0t := by
      simp only [alSet, if_pos hk1]
    show List.foldl (fun acc np2 => alSet acc np2.1 np2.2)
      (alSet ((qk, qv) :: ps0t) nk nv) ps = _
    rw [h1, foldl_alSet_cons nk nv ps ps0t
      (fun np2 h2 he => hnm (he ▸ List.mem_map_of_mem Prod.fst h2))]
    rw [ih ps0t hk2 hnd2]

theorem exFold_applyOpt_other (c2 : String) :
    ∀ (l : List (String × List Char)) (s s2 : EqSt),
    exFold (applyOpt c2) s l = .ok s2 → ∀ c, c ≠ c2 →
    alLookup s2.p c = alLookup s.p c ∧ s2.current = s.current := by
  intro l
  induction l with
  | nil =>
    intro s s2 h c _
    injection h with h2
    subst h2
    exact ⟨rfl, rfl⟩
  | cons ot l ih =>
    intro s s2 h c hne
    unfold exFold at h
    revert h
    cases hao : applyOpt c2 s ot with
    | error e => exact fun h => Except.noConfusion h
    | ok s1 =>
      intro h
      obtain ⟨par, ps, hf2, hl2, hst⟩ := applyOpt_elim c2 s ot s1 hao
      obtain ⟨ih1, ih2⟩ := ih s1 s2 h c hne
      subst hst
      exact ⟨ih1.trans (alLookup_alSet_ne s.p c2 c _
        (fun he => hne he.symm)), ih2⟩

theorem processCat_other (env : Env) (file : MatchFile) (s : EqSt)
    (c2 : String) (s2 : EqSt) (c : String)
    (h : processCat env file s c2 = .ok s2) (hne : c ≠ c2) :
    alLookup s2.p c = alLookup s.p c ∧
      alLookup s2.current c = alLookup s.current c := by
  unfold processCat at h
  revert h
  cases alLookup file c2 with
  | none =>
    intro h
    injection h with h2
    subst h2
    exact ⟨rfl, rfl⟩
  | some sec =>
    intro h
    dsimp only at h
    revert h
    cases getBackend s c2 with
    | error e => exact fun h => Except.noConfusion h
    | ok cur =>
      intro h
      dsimp only at h
      revert h
      cases hsb : (if sec.backend ≠ cur then
          setBackend env s c2 sec.backend else Except.ok s) with
      | error e => exact fun h => Except.noConfusion h
      | ok s1 =>
        intro h
        dsimp only at h
        have hs1 : alLookup s1.p c = alLookup s.p c ∧
            alLookup s1.current c = alLookup s.current c := by
          revert hsb
          by_cases hbc : sec.backend ≠ cur
          · rw [if_pos hbc]
            intro hsb
            obtain ⟨fn, ps, hf2, hmem, hg2, hst⟩ :=
              setBackend_elim env s c2 sec.backend s1 hsb
            rw [hst]
            exact ⟨alLookup_alSet_ne s.p c2 c ps (fun he => hne he.symm),
              alLookup_alSet_ne s.current c2 c _ (fun he => hne he.symm)⟩
          · rw [if_neg hbc]
            intro hsb
            injection hsb with h2
            subst h2
            exact ⟨rfl, rfl⟩
        obtain ⟨hp2, hc2⟩ := exFold_applyOpt_other c2 sec.opts s1 s2 h c hne
        refine ⟨hp2.trans hs1.1, ?_⟩
        rw [hc2]
        exact hs1.2

theorem exFold_processCat_other (env : Env) (file : MatchFile) :
    ∀ (K : List String) (s s2 : EqSt),
    exFold (processCat env file) s K = .ok s2 → ∀ c, c ∉ K →
    alLookup s2.p c = alLookup s.p c ∧
      alLookup s2.current c = alLookup s.current c := by
  intro K
  induction K with
  | nil =>
    intro s s2 h c _
    injection h with h2
    subst h2
    exact ⟨rfl, rfl⟩
  | cons c0 K ih =>
    intro s s2 h c hc
    unfold exFold at h
    revert h
    cases hpc : processCat env file s c0 with
    | error e => exact fun h => Except.noConfusion h
    | ok s1 =>
      intro h
      have hne : c ≠ c0 := fun he => hc (he ▸ List.mem_cons_self c0 K)
      obtain ⟨p1, cu1⟩ := processCat_other env file s c0 s1 c hpc hne
      obtain ⟨p2, cu2⟩ := ih s1 s2 h c
        (fun h2 => hc (List.mem_cons_of_mem c0 h2))
      exact ⟨p2.trans p1, cu2.trans cu1⟩

theorem c2_fold (env : Env) (st f : EqSt) (file : MatchFile)
    (hsave : toMatchFile st = .ok file)
    (hdec : ∀ c ∈ st.p.map Prod.fst, ∀ np ∈ (alLookup st.p c).getD [],
      fromString (reprOf np.2) = .ok np.2)
    (hpnd : ∀ c ∈ st.p.map Prod.fst,
      (keysOf ((alLookup st.p c).getD [])).Nodup)
    (hgen : ∀ c ∈ st.p.map Prod.fst, genKeysOkB env st c = true)
    (hfresh : ∀ c ∈ st.p.map Prod.fst, freshKeysOkB f st c = true)
    (hfcur : ∀ c ∈ st.p.map Prod.fst, isOkE (getBackend f c) = true)
    (hfkeys : ∀ c ∈ st.p.map Prod.fst, hasKey f.p c = true) :
    ∀ (K : List String), K.Nodup → (∀ c ∈ K, c ∈ st.p.map Prod.fst) →
    ∀ s : EqSt,
    (∀ c ∈ K, alLookup s.current c = alLookup f.current c ∧
      alLookup s.p c = alLookup f.p c) →
    ∃ s2, exFold (processCat env file) s K = .ok s2 ∧
      ∀ c ∈ K, alLookup s2.p c = alLookup st.p c ∧
        getBackend s2 c = getBackend st c := by
  intro K
  induction K with
  | nil =>
    intro _ _ s _
    exact ⟨s, rfl, fun c hc => absurd hc (List.not_mem_nil c)⟩
  | cons c0 K ih =>
    intro hnd hsub s hA
    have hc0K : c0 ∉ K := (List.nodup_cons.mp hnd).1
    have hndK : K.Nodup := (List.nodup_cons.mp hnd).2
    have hmem : c0 ∈ st.p.map Prod.fst := hsub c0 (List.mem_cons_self c0 K)
    obtain ⟨psv, hps⟩ := mem_keys_lookup st.p c0 hmem
    obtain ⟨b, hgbst, hsec⟩ := toMatchFile_lookup st file c0 psv hsave hps
    obtain ⟨cur, hgbf⟩ := isOkE_elim _ (hfcur c0 hmem)
    have hgbs : getBackend s c0 = .ok cur := by
      rw [getBackend_congr s f c0 (hA c0 (List.mem_cons_self c0 K)).1]
      exact hgbf
    have hdec2 : ∀ np ∈ psv, fromString (reprOf np.2) = .ok np.2 := by
      intro np hm
      exact hdec c0 hmem np (by rw [hps]; exact hm)
    have hpnd2 : (keysOf psv).Nodup := by
      have h2 := hpnd c0 hmem
      rw [hps] at h2
      exact h2
    suffices hstep : ∃ s2c, processCat env file s c0 = .ok s2c ∧
        alLookup s2c.p c0 = some psv ∧ getBackend s2c c0 = .ok b ∧
        ∀ c ∈ K, alLookup s2c.current c = alLookup s.current c ∧
          alLookup s2c.p c = alLookup s.p c by
      obtain ⟨s2c, hpc, hlookv, hgb2, hpres⟩ := hstep
      have hA2 : ∀ c ∈ K, alLookup s2c.current c = alLookup f.current c ∧
          alLookup s2c.p c = alLookup f.p c := by
        intro c hc
        have hAc := hA c (List.mem_cons_of_mem c0 hc)
        obtain ⟨pc, pp⟩ := hpres c hc
        exact ⟨pc.trans hAc.1, pp.trans hAc.2⟩
      obtain ⟨s2, hfold2, hcons⟩ :=
        ih hndK (fun c hc => hsub c (List.mem_cons_of_mem c0 hc)) s2c hA2
      refine ⟨s2, ?_, ?_⟩
      · unfold exFold
        rw [hpc]
        dsimp only
        exact hfold2
      · intro c hc
        rcases List.mem_cons.mp hc with rfl | hcK
        · obtain ⟨pp, pc⟩ :=
            exFold_processCat_other env file K s2c s2 hfold2 c hc0K
          constructor
          · rw [pp, hlookv, hps]
          · rw [getBackend_congr s2 s2c c pc, hgb2, hgbst]
        · exact hcons c hcK
    by_cases hbc : b = cur
    · obtain ⟨psf, hpsf⟩ := hasKey_elim f.p c0 (hfkeys c0 hmem)
      have hpss : alLookup s.p c0 = some psf := by
        rw [(hA c0 (List.mem_cons_self c0 K)).2]
        exact hpsf
      have hkeq : keysOf psf = keysOf psv := by
        have hF := hfresh c0 hmem
        unfold freshKeysOkB at hF
        rw [hgbf, hgbst] at hF
        dsimp only at hF
        rw [if_pos hbc.symm] at hF
        have h2 := of_decide_eq_true hF
        rw [hpsf, hps] at h2
        exact h2
      obtain ⟨s2c, hfold1, hcur1, hlook1, hoth1⟩ :=
        exFold_applyOpt c0 psv s psf hpss hdec2
      refine ⟨s2c, ?_, ?_, ?_, ?_⟩
      · unfold processCat
        rw [hsec]
        dsimp only
        rw [hgbs]
        dsimp only
        rw [if_neg (not_not_intro hbc)]
        dsimp only
        exact hfold1
      · rw [hlook1, foldl_alSet_restore psv psf hkeq hpnd2]
      · rw [getBackend_congr s2c s c0 (by rw [hcur1]), hgbs, hbc]
      · intro c hc
        have hnc : c ≠ c0 := fun he => hc0K (he ▸ hc)
        exact ⟨by rw [hcur1], hoth1 c hnc⟩
    · obtain ⟨fn, idx, hfn, hcuridx, hget⟩ := getBackend_elim st c0 b hgbst
      have hbmem : b ∈ algorithms fn := List.get?_mem hget
      have hG := hgen c0 hmem
      unfold genKeysOkB at hG
      rw [hgbst] at hG
      dsimp only at hG
      revert hG
      cases hgp : genParams env c0 b with
      | error e => exact fun hG => Bool.noConfusion hG
      | ok ps0 =>
        intro hG
        dsimp only at hG
        have hkeq : keysOf ps0 = keysOf psv := by
          have h2 := of_decide_eq_true hG
          rw [hps] at h2
          exact h2
        have hsb : setBackend env s c0 b = .ok
            { current := alSet s.current c0 (listIndex (algorithms fn) b),
              p := alSet s.p c0 ps0 } :=
          setBackend_ok env s c0 b fn ps0 hfn hbmem hgp
        obtain ⟨s2c, hfold1, hcur1, hlook1, hoth1⟩ :=
          exFold_applyOpt c0 psv
            { current := alSet s.current c0 (listIndex (algorithms fn) b),
              p := alSet s.p c0 ps0 }
            ps0 (alLookup_alSet_self _ _ _) hdec2
        refine ⟨s2c, ?_, ?_, ?_, ?_⟩
        · unfold processCat
          rw [hsec]
          dsimp only
          rw [hgbs]
          dsimp only
          rw [if_pos hbc, hsb]
          dsimp only
          exact hfold1
        · rw [hlook1, foldl_alSet_restore psv ps0 hkeq hpnd2]
        · rw [getBackend_congr s2c
            { current := alSet s.current c0 (listIndex (algorithms fn) b),
              p := alSet s.p c0 ps0 } c0 (by rw [hcur1])]
          exact getBackend_setBackend env s c0 b _ hsb
        · intro c hc
          have hnc : c ≠ c0 := fun he => hc0K (he ▸ hc)
          constructor
          · rw [hcur1]
            exact alLookup_alSet_ne s.current c0 c _ (fun he => hnc he.symm)
          · rw [hoth1 c hnc]
            exact alLookup_alSet_ne s.p c0 c _ (fun he => hnc he.symm)

/-- Claim C2 (amended): saving a registry and loading the file into a
fresh registry of the same catalog reproduces the algorithm selection and
the full parameter dict of every category, provided the saved registry is
well formed for the codec: distinct category keys, every stored parameter
decodes back to itself from its rendered text (the C1 encodability
conditions - otherwise the load raises), every category keeps exactly the
parameter names of its generated defaults, and the fresh registry is
already configured for every category (`from_match_file` calls
`get_backend` before anything else, so a never-configured registry raises
a `KeyError` instead of loading). -/
theorem c2_round_trip (env : Env) (st f : EqSt) (file : MatchFile)
    (hsave : toMatchFile st = .ok file)
    (hknd : (st.p.map Prod.fst).Nodup)
    (hkeys : f.p.map Prod.fst = st.p.map Prod.fst)
    (hdec : ∀ c ∈ st.p.map Prod.fst, ∀ np ∈ (alLookup st.p c).getD [],
      fromString (reprOf np.2) = .ok np.2)
    (hpnd : ∀ c ∈ st.p.map Prod.fst,
      (keysOf ((alLookup st.p c).getD [])).Nodup)
    (hgen : ∀ c ∈ st.p.map Prod.fst, genKeysOkB env st c = true)
    (hfresh : ∀ c ∈ st.p.map Prod.fst, freshKeysOkB f st c = true)
    (hfcur : ∀ c ∈ st.p.map Prod.fst, isOkE (getBackend f c) = true)
    (hfkeys : ∀ c ∈ st.p.map Prod.fst, hasKey f.p c = true) :
    ∃ f2, fromMatchFile env f file = .ok f2 ∧
      ∀ c ∈ st.p.map Prod.fst,
        alLookup f2.p c = alLookup st.p c ∧
        getBackend f2 c = getBackend st c := by
  obtain ⟨f2, hfold, hcons⟩ :=
    c2_fold env st f file hsave hdec hpnd hgen hfresh hfcur hfkeys
      (st.p.map Prod.fst) hknd (fun c hc => hc) f (fun c hc => ⟨rfl, rfl⟩)
  refine ⟨f2, ?_, hcons⟩
  unfold fromMatchFile
  rw [hkeys]
  exact hfold

/-- The `similarity` parameter after a manual value edit to `0.5`. -/
def editedSim : CVParameter := { simParam with value := .pfloat (mkRat 1 2) }

/-- The hybrid defaults with the `similarity` value manually edited. -/
def hybridEdited : Params :=
  ("similarity", editedSim) :: findHybridParams.tail

/-- A saved registry: hybrid finder with one edited parameter value. -/
def stC2 : EqSt :=
  { current := [("find", 3)], p := [("find", hybridEdited)] }

/-- A fresh registry of the same catalog, configured with `autopy`. -/
def fFreshC2 : EqSt :=
  { current := [("find", 0)], p := [("find", [("similarity", simParam)])] }

/-- The match file `to_match_file` writes for `stC2`. -/
def fileC2 : MatchFile :=
  [("find", MSec.mk ("hybrid")
    (hybridEdited.map (fun np => (np.1, reprOf np.2))))]

theorem c2_round_trip_witness :
    (toMatchFile stC2 = .ok fileC2 ∧
      (stC2.p.map Prod.fst).Nodup ∧
      fFreshC2.p.map Prod.fst = stC2.p.map Prod.fst ∧
      (∀ c ∈ stC2.p.map Prod.fst, ∀ np ∈ (alLookup stC2.p c).getD [],
        fromString (reprOf np.2) = .ok np.2) ∧
      (∀ c ∈ stC2.p.map Prod.fst,
        (keysOf ((alLookup stC2.p c).getD [])).Nodup) ∧
      (∀ c ∈ stC2.p.map Prod.fst, genKeysOkB env0 stC2 c = true) ∧
      (∀ c ∈ stC2.p.map Prod.fst, freshKeysOkB fFreshC2 stC2 c = true) ∧
      (∀ c ∈ stC2.p.map Prod.fst, isOkE (getBackend fFreshC2 c) = true) ∧
      (∀ c ∈ stC2.p.map Prod.fst, hasKey fFreshC2.p c = true)) ∧
    (∃ f2, fromMatchFile env0 fFreshC2 fileC2 = .ok f2 ∧
      ∀ c ∈ stC2.p.map Prod.fst,
        alLookup f2.p c = alLookup stC2.p c ∧
        getBackend f2 c = getBackend stC2 c) :=
  ⟨⟨by decide, by decide, by decide, by decide, by decide, by decide,
    by decide, by decide, by decide⟩,
   c2_round_trip env0 stC2 fFreshC2 fileC2 (by decide) (by decide)
     (by decide) (by decide) (by decide) (by decide) (by decide) (by decide)
     (by decide)⟩

/-- A saved registry holding a constructible but undecodable value. -/
def stBad : EqSt :=
  { current := [("find", 3)], p := [("find", [("similarity", negParam)])] }

/-- The match file `to_match_file` writes for `stBad`. -/
def fileBad : MatchFile :=
  [("find", MSec.mk ("hybrid") [(("similarity"), reprOf negParam)])]

/-- Claim C2 counterexample: a registry holding a parameter with a
negative value saves without complaint, but loading the saved file into a
configured fresh registry raises `ValueError` - the decoding regex has no
sign character - so save-then-load does not reproduce the registry. -/
theorem c2_counterexample :
    toMatchFile stBad = .ok fileBad ∧
    fromMatchFile env0 fFreshC2 fileBad = .error .valueError := by
  decide
